/-
Verification of the index-and-map core of the pancake HiFi overlap engine.

This file shallowly embeds the C++ sources
  src/overlaphifi/SeedIndex.cpp
  src/overlaphifi/Mapper.cpp
  src/seeddb/SeedDBIndexCache.cpp
into Lean: strings become `List Char`, machine integers become `Int`/`Nat`
(with explicit masks where overflow matters), fallible code returns
`Except String`.  External collaborators that are declared but not defined
in the repository (the packed-seed codec `Seed`, `ReverseComplement`, and
the banded SES primitive) are taken as parameters of the embedded
functions, so every theorem is parametric in their behaviour.
-/
import Mathlib

set_option autoImplicit false

namespace Pancake

/-! ### Character-level scanning utilities

Models of the C standard-library pieces the parsers rely on:
`isspace`, `sscanf`-style `%d`/`%s` conversion, `std::istream`
extraction, and `std::stoi`.  All operate on `List Char` cursors. -/

/-- C `isspace` for the default locale. -/
def isWS (c : Char) : Bool :=
  c = ' ' || c = '\t' || c = '\n' || c = '\r' || c = '\x0b' || c = '\x0c'

/-- Value of a decimal digit string (no sign), most significant first. -/
def digitsToNat (s : List Char) : Nat :=
  s.foldl (fun acc c => acc * 10 + (c.toNat - 48)) 0

/-- Scan a maximal nonempty run of decimal digits; `none` if the cursor
does not start with a digit. -/
def scanDigits (s : List Char) : Option (Nat × List Char) :=
  let ds := s.takeWhile Char.isDigit
  if ds.isEmpty then none else some (digitsToNat ds, s.dropWhile Char.isDigit)

/-- Model of `%d` / `istream >> int` / `std::stoi`: skip whitespace, read an
optional sign and a nonempty digit run.  `none` models conversion failure. -/
def scanInt (s : List Char) : Option (Int × List Char) :=
  let s1 := s.dropWhile isWS
  if s1.head? = some '-' then
    (scanDigits s1.tail).map (fun p => (-(p.1 : Int), p.2))
  else if s1.head? = some '+' then
    (scanDigits s1.tail).map (fun p => ((p.1 : Int), p.2))
  else
    (scanDigits s1).map (fun p => ((p.1 : Int), p.2))

/-- Model of `%s` / `istream >> std::string`: skip whitespace, read a
maximal nonempty run of non-whitespace characters. -/
def scanTok (s : List Char) : Option (List Char × List Char) :=
  let s1 := s.dropWhile isWS
  let t := s1.takeWhile (fun c => !(isWS c))
  if t.isEmpty then none else some (t, s1.dropWhile (fun c => !(isWS c)))

/-- Model of `istream >> char`: skip whitespace, read one character. -/
def scanChar (s : List Char) : Option (Char × List Char) :=
  match s.dropWhile isWS with
  | [] => none
  | c :: r => some (c, r)

/-- Model of `std::stoi` (which throws when no conversion is possible). -/
def stoiM (s : List Char) : Option Int :=
  (scanInt s).map (fun p => p.1)

/-- Decimal digit emission of a natural number, as printed by `operator<<`;
the fuel argument only bounds the recursion depth (structural recursion, so
that emitted text computes by kernel reduction). -/
def natToCharsGo : Nat → Nat → List Char
  | 0, _ => []
  | fuel + 1, n =>
    if n < 10 then [Char.ofNat (48 + n)]
    else natToCharsGo fuel (n / 10) ++ [Char.ofNat (48 + n % 10)]

/-- Decimal digit string of a natural number, as printed by `operator<<`
(`n` itself always bounds the digit count). -/
def natToChars (n : Nat) : List Char := natToCharsGo (n + 1) n

/-- Decimal string of an integer, as printed by `operator<<`. -/
def intToChars (i : Int) : List Char :=
  if i < 0 then '-' :: natToChars (-i).toNat else natToChars i.toNat

/-- Discriminator for `Except` results (a thrown C++ exception). -/
def isErr {ε α : Type} (x : Except ε α) : Bool :=
  match x with
  | .error _ => true
  | .ok _ => false

instance {ε α : Type} [DecidableEq ε] [DecidableEq α] : DecidableEq (Except ε α) :=
  fun a b =>
  match a, b with
  | .error e1, .error e2 =>
    match decEq e1 e2 with
    | isTrue h => isTrue (by rw [h])
    | isFalse h => isFalse (fun hc => h (Except.error.inj hc))
  | .error _, .ok _ => isFalse (fun hc => Except.noConfusion hc)
  | .ok _, .error _ => isFalse (fun hc => Except.noConfusion hc)
  | .ok a1, .ok a2 =>
    match decEq a1 a2 with
    | isTrue h => isTrue (by rw [h])
    | isFalse h => isFalse (fun hc => h (Except.ok.inj hc))

/-! ### Mapper: target subsequence fetcher

Embedding of `Mapper::FetchTargetSubsequence_` (src/overlaphifi/Mapper.cpp).
`ReverseComplement(bases, start, end)` is an external utility, passed as the
parameter `revCmpFn`. -/

/-- Embedding of `Mapper::FetchTargetSubsequence_`.  Mirrors the source
order of checks: the empty-range early return precedes the range check. -/
def fetchTargetSubsequence (revCmpFn : List Char → Int → Int → List Char)
    (bases : List Char) (seqStart seqEnd : Int) (revCmp : Bool) :
    Except String (List Char) :=
  let seqLen : Int := bases.length
  if seqEnd = seqStart then .ok []
  else if seqStart < 0 ∨ seqEnd < 0 ∨ seqStart > seqLen ∨ seqEnd > seqLen ∨
      seqEnd < seqStart then
    .error "Invalid seqStart or seqEnd in a call to FetchTargetSubsequence_."
  else
    let seqEnd2 := if seqEnd = 0 then seqLen else seqEnd
    if revCmp then .ok (revCmpFn bases seqStart seqEnd2)
    else .ok ((bases.drop seqStart.toNat).take (seqEnd2 - seqStart).toNat)

/-- The range condition named by claim C7. -/
def fetchRangeBad (len seqStart seqEnd : Int) : Prop :=
  seqStart < 0 ∨ seqEnd < 0 ∨ seqStart > len ∨ seqEnd > len ∨ seqEnd < seqStart

instance (len s e : Int) : Decidable (fetchRangeBad len s e) := by
  unfold fetchRangeBad; infer_instance

/-! ### Data model: seeds and the SeedDB index cache

The packed-seed codec (`pacbio/seeddb/Seed.h`) is declared but not part of
the sources; the functions below therefore take the decoder as a parameter
`decode : SeedRaw → Seed` and only use the decoded fields, exactly as the
embedded code does. -/

/-- A raw packed seed: one 128-bit word, modelled as `Nat`.  The radix sort
in `SeedIndex::BuildHash_` orders these as unsigned integers. -/
abbrev SeedRaw := Nat

/-- Decoded view of a packed seed (the `SeedDB::Seed` class): hash key,
target sequence ordinal, position, strand (`IsRev()`). -/
structure Seed where
  key : Nat
  seqID : Int
  pos : Int
  seedRev : Bool
deriving DecidableEq

/-- Seed-construction parameters (`SeedDB::SeedDBParameters`). -/
structure SeedDBParameters where
  KmerSize : Int
  MinimizerWindow : Int
  UseHPC : Bool
  MaxHPCLen : Int
  UseRC : Bool
deriving DecidableEq

/-- One `F` record of the SeedDB index (`SeedDBFileLine`). -/
structure SeedDBFileLine where
  fileId : Int
  filename : List Char
  numSequences : Int
  numBytes : Int
deriving DecidableEq

/-- One `S` record of the SeedDB index (`SeedDBSeedsLine`). -/
structure SeedDBSeedsLine where
  seqId : Int
  header : List Char
  fileId : Int
  fileOffset : Int
  numBytes : Int
  numBases : Int
  numSeeds : Int
deriving DecidableEq

/-- One `B` record of the SeedDB index (`SeedDBBlockLine`). -/
structure SeedDBBlockLine where
  blockId : Int
  startSeqId : Int
  endSeqId : Int
  numBytes : Int
deriving DecidableEq

/-- The in-memory index cache (`SeedDBIndexCache`): version string, seed
parameters and the three parallel tables.  The filename/path bookkeeping
fields are omitted; no claim mentions them. -/
structure SeedDBIndexCache where
  version : List Char
  seedParams : SeedDBParameters
  fileLines : List SeedDBFileLine
  seedLines : List SeedDBSeedsLine
  blockLines : List SeedDBBlockLine
deriving DecidableEq

/-- Placeholder record returned by `List.getD` under an in-range guard. -/
def dummySeedsLine : SeedDBSeedsLine :=
  { seqId := 0, header := [], fileId := 0, fileOffset := 0, numBytes := 0,
    numBases := 0, numSeeds := 0 }

/-- Embedding of `SeedDBIndexCache::GetSeedsLine`: bounds-checked table
access, throwing on an invalid ordinal. -/
def getSeedsLine (cache : SeedDBIndexCache) (seqId : Int) :
    Except String SeedDBSeedsLine :=
  if seqId < 0 ∨ seqId ≥ (cache.seedLines.length : Int) then
    .error "Invalid seqId."
  else .ok (cache.seedLines.getD seqId.toNat dummySeedsLine)

/-! ### Seed index (src/overlaphifi/SeedIndex.cpp)

The hash is modelled as an association list of `(key, start, end)` entries;
an assignment `hash_[key] = (start, end)` prepends and lookups take the
first match, which reproduces the overwrite semantics of the C++ map. -/

/-- Loop body of `SeedIndex::BuildHash_`: scan the (sorted) seed list,
recording each maximal run of equal decoded keys as `(key, start, end)`.
Arguments after the seed list: current index `i`, run `start`, run `end`,
`prevKey`, accumulated entries. -/
def buildHashGo (dk : SeedRaw → Nat) :
    List SeedRaw → Nat → Nat → Nat → Nat → List (Nat × Nat × Nat) →
    List (Nat × Nat × Nat)
  | [], _, start, e, prevKey, acc =>
    if start < e then (prevKey, start, e) :: acc else acc
  | r :: rest, i, start, e, prevKey, acc =>
    let key := dk r
    if key = prevKey then buildHashGo dk rest (i + 1) start (e + 1) prevKey acc
    else buildHashGo dk rest (i + 1) i (i + 1) key ((prevKey, start, e) :: acc)

/-- Embedding of `SeedIndex::BuildHash_`'s hash-filling scan (the input is
the already-sorted seed array; an empty input leaves the hash empty). -/
def buildHash (dk : SeedRaw → Nat) (seeds : List SeedRaw) :
    List (Nat × Nat × Nat) :=
  match seeds with
  | [] => []
  | s0 :: _ => buildHashGo dk seeds 0 0 0 (dk s0) []

/-- Hash lookup; first match wins, matching last-write-wins insertion. -/
def hashFind (hash : List (Nat × Nat × Nat)) (key : Nat) : Option (Nat × Nat) :=
  (hash.find? (fun ent => ent.1 = key)).map (fun ent => ent.2)

/-- The seed index: the radix-sorted seed array plus the key hash. -/
structure SeedIndexModel where
  sortedSeeds : List SeedRaw
  hash : List (Nat × Nat × Nat)
deriving DecidableEq

/-- Embedding of the `SeedIndex` constructor: take ownership of the seed
array, radix-sort it by the full packed word, and build the hash. -/
def buildSeedIndex (dk : SeedRaw → Nat) (seeds : List SeedRaw) : SeedIndexModel :=
  let sorted := List.insertionSort (fun a b => a ≤ b) seeds
  { sortedSeeds := sorted, hash := buildHash dk sorted }

/-- Embedding of `SeedIndex::GetSeeds`: return the seed slice
`[start, end)` recorded for `key`, or the empty slice if absent. -/
def getSeeds (idx : SeedIndexModel) (key : Nat) : List SeedRaw :=
  match hashFind idx.hash key with
  | none => []
  | some (s, e) => (idx.sortedSeeds.drop s).take (e - s)

/-- The invariant claimed for one hash entry `(key, start, end)` of a seed
index over seed array `seeds`: `start < end ≤ len(seeds)` and every seed in
`[start, end)` decodes to `key`. -/
def hashEntryOK (dk : SeedRaw → Nat) (seeds : List SeedRaw)
    (ent : Nat × Nat × Nat) : Prop :=
  ent.2.1 < ent.2.2 ∧ ent.2.2 ≤ seeds.length ∧
    ∀ j, ent.2.1 ≤ j → j < ent.2.2 → dk (seeds.getD j 0) = ent.1

instance (dk : SeedRaw → Nat) (seeds : List SeedRaw) (ent : Nat × Nat × Nat) :
    Decidable (hashEntryOK dk seeds ent) := by
  unfold hashEntryOK
  infer_instance

/-- A concrete decoder used to instantiate parametric theorems: the key is
the raw word itself. -/
def decodeId : SeedRaw → Seed := fun n => { key := n, seqID := 0, pos := 0, seedRev := false }

/-! ### Seed-hit collection (SeedIndex::CollectHits) -/

/-- A seed hit: `(targetId, targetRev, targetPos, reserved, queryPos)`. -/
structure SeedHit where
  targetId : Int
  targetRev : Bool
  targetPos : Int
  rsv : Int
  queryPos : Int
deriving DecidableEq

/-- `SeedHit::Diagonal()`. -/
def seedHitDiagonal (h : SeedHit) : Int := h.targetPos - h.queryPos

/-- Body of the inner loop of `SeedIndex::CollectHits`: build one hit from a
decoded query seed and a decoded target seed.  When the strands differ the
target position is reflected to the forward strand using the target's
`numBases` (from the cache) and the seed parameter `kmerSize`. -/
def makeSeedHit (cache : SeedDBIndexCache) (kmerSize : Int)
    (decodedQuery decodedTarget : Seed) : Except String SeedHit :=
  if decodedQuery.seedRev ≠ decodedTarget.seedRev then do
    let sl ← getSeedsLine cache decodedTarget.seqID
    pure { targetId := decodedTarget.seqID, targetRev := true,
           targetPos := sl.numBases - (decodedTarget.pos + kmerSize), rsv := 0,
           queryPos := decodedQuery.pos }
  else
    pure { targetId := decodedTarget.seqID, targetRev := false,
           targetPos := decodedTarget.pos, rsv := 0,
           queryPos := decodedQuery.pos }

/-- Embedding of `SeedIndex::CollectHits`: for each query seed look up its
key; skip buckets larger than `freqCutoff` when `freqCutoff > 0`; otherwise
emit one hit per bucket occurrence. -/
def collectHits (decode : SeedRaw → Seed) (cache : SeedDBIndexCache)
    (idx : SeedIndexModel) (querySeeds : List SeedRaw) (freqCutoff : Int) :
    Except String (List SeedHit) :=
  querySeeds.foldlM (fun hits q => do
    let dq := decode q
    match hashFind idx.hash dq.key with
    | none => pure hits
    | some (s, e) =>
      if freqCutoff > 0 ∧ ((e : Int) - (s : Int)) > freqCutoff then pure hits
      else do
        let bucket := (idx.sortedSeeds.drop s).take (e - s)
        let newHits ← bucket.mapM
          (fun r => makeSeedHit cache cache.seedParams.KmerSize dq (decode r))
        pure (hits ++ newHits)) []

/-- Concrete decoder for the C5 scenario: raw word 0 is the target seed
`(key=7, seqId=4, pos=20, rev=true)`; every other word is the query seed
`(key=7, seqId=0, pos=10, rev=false)`. -/
def decodeC5 : SeedRaw → Seed := fun n =>
  if n = 0 then { key := 7, seqID := 4, pos := 20, seedRev := true }
  else { key := 7, seqID := 0, pos := 10, seedRev := false }

/-- Concrete cache for the C5 scenario: five `S` records (seqIds 0..4),
target 4 has `numBases = 100`; seed parameters have `KmerSize = 30`. -/
def cacheC5 : SeedDBIndexCache :=
  { version := [],
    seedParams := { KmerSize := 30, MinimizerWindow := 80, UseHPC := false,
                    MaxHPCLen := 10, UseRC := true },
    fileLines := [],
    seedLines := [
      { dummySeedsLine with seqId := 0 },
      { dummySeedsLine with seqId := 1 },
      { dummySeedsLine with seqId := 2 },
      { dummySeedsLine with seqId := 3 },
      { dummySeedsLine with seqId := 4, numBases := 100 }],
    blockLines := [] }

/-! ### Frequency statistics (SeedIndex::ComputeFrequencyStats)

Doubles are modelled as rationals.  The read `freqs[cutoffId]` is not
bounds-checked in the source (`std::vector::operator[]`); the model makes
the out-of-bounds case explicit as a dedicated error value. -/

/-- Embedding of `SeedIndex::ComputeFrequencyStats`.  Returns
`(max, avg, median, cutoff)` over the nonzero bucket spans. -/
def computeFrequencyStats (idx : SeedIndexModel) (percentileCutoff : ℚ) :
    Except String (Int × ℚ × ℚ × Int) :=
  if percentileCutoff < 0 ∨ percentileCutoff > 1 then
    .error "Invalid percentileCutoff value, should be in range 0.0 to 1.0."
  else if idx.hash.isEmpty then .ok (0, 0, 0, 0)
  else
    let freqs0 := (idx.hash.map
      (fun ent => ((ent.2.2 : Int) - (ent.2.1 : Int)))).filter
        (fun span => span ≠ 0)
    let numValidKeys : Int := freqs0.length
    if numValidKeys ≤ 0 then .error "Invalid number of valid keys!"
    else
      let freqs := List.insertionSort (fun a b => a ≤ b) freqs0
      let numKeys : ℚ := (freqs0.length : ℚ)
      let cutoffId : Int := ⌊numKeys * (1 - percentileCutoff)⌋
      match freqs.get? cutoffId.toNat with
      | none => .error "out-of-bounds read of freqs in ComputeFrequencyStats"
      | some cutoffVal =>
        let sumFreqs : ℚ := (freqs0.map (fun z => (z : ℚ))).sum
        .ok (freqs.getLast?.getD 0, sumFreqs / numKeys,
          (((freqs.getD (freqs0.length / 2) 0 : Int) : ℚ) +
            ((freqs.getD ((freqs0.length - 1) / 2) 0 : Int) : ℚ)) / 2,
          cutoffVal)

/-! ### Mapper data model (src/overlaphifi/Mapper.cpp)

`FastaSequenceId` is reduced to the fields the mapper reads: the sequence
id and its bases.  Floats (`Score`, `Identity`) are modelled as rationals. -/

/-- The query sequence as seen by the mapper (`FastaSequenceId`). -/
structure QuerySeq where
  id : Int
  bases : List Char
deriving DecidableEq

/-- An overlap record; fields in the argument order of `createOverlap`. -/
structure Overlap where
  Aid : Int
  Bid : Int
  Score : ℚ
  Identity : ℚ
  Arev : Bool
  Astart : Int
  Aend : Int
  Alen : Int
  Brev : Bool
  Bstart : Int
  Bend : Int
  Blen : Int
  EditDistance : Int
  NumSeeds : Int
deriving DecidableEq

/-- The `createOverlap` factory, in source argument order. -/
def createOverlap (Aid Bid : Int) (Score Identity : ℚ) (Arev : Bool)
    (Astart Aend Alen : Int) (Brev : Bool) (Bstart Bend Blen : Int)
    (EditDistance NumSeeds : Int) : Overlap :=
  { Aid := Aid, Bid := Bid, Score := Score, Identity := Identity, Arev := Arev,
    Astart := Astart, Aend := Aend, Alen := Alen, Brev := Brev,
    Bstart := Bstart, Bend := Bend, Blen := Blen,
    EditDistance := EditDistance, NumSeeds := NumSeeds }

/-- `Overlap::ASpan()`. -/
def overlapASpan (o : Overlap) : Int := o.Aend - o.Astart

/-- `Overlap::BSpan()`. -/
def overlapBSpan (o : Overlap) : Int := o.Bend - o.Bstart

/-- Placeholder hit returned by `List.getD` for unchecked vector indexing. -/
def dummySeedHit : SeedHit :=
  { targetId := 0, targetRev := false, targetPos := 0, rsv := 0, queryPos := 0 }

/-- Embedding of `Mapper::MakeOverlap_`: build a candidate overlap from the
group `[beginId, endId)` whose extremal hits (by `(targetPos, queryPos)`)
are at `minTargetPosId` and `maxTargetPosId`.  Throws when the two extremal
hits disagree on `targetId` (`InvariantViolation`), and propagates
`GetSeedsLine`'s error for an invalid target ordinal. -/
def makeOverlap (sortedHits : List SeedHit) (querySeq : QuerySeq)
    (indexCache : SeedDBIndexCache)
    (beginId endId minTargetPosId maxTargetPosId : Nat) :
    Except String Overlap :=
  let beginHit := sortedHits.getD minTargetPosId dummySeedHit
  let endHit := sortedHits.getD maxTargetPosId dummySeedHit
  let targetId := beginHit.targetId
  let numSeeds : Int := (endId : Int) - (beginId : Int)
  if endHit.targetId ≠ beginHit.targetId then
    .error "The targetId of the first and last seed does not match, in MakeOverlap."
  else
    match getSeedsLine indexCache targetId with
    | .error msg => .error msg
    | .ok sl =>
      .ok (createOverlap querySeq.id targetId (numSeeds : ℚ) 0 false
        beginHit.queryPos endHit.queryPos (querySeq.bases.length : Int)
        beginHit.targetRev beginHit.targetPos endHit.targetPos sl.numBases
        (-1) numSeeds)

/-- The packed `(targetPos, queryPos)` combination used by the sweep for
cheap min/max comparison: `(uint64)targetPos << 32 | (uint64)queryPos`,
with the C conversions from `int32_t` to `uint64_t` made explicit. -/
def posCombo (h : SeedHit) : Nat :=
  ((((h.targetPos % (2 ^ 64 : Int)).toNat) <<< 32) % 2 ^ 64) |||
    ((h.queryPos % (2 ^ 64 : Int)).toNat)

/-- Mutable state of the sweep in `Mapper::FormDiagonalAnchors_`. -/
structure ChainState where
  beginId : Nat
  beginDiag : Int
  minTargetQueryPosCombo : Nat
  maxTargetQueryPosCombo : Nat
  minPosId : Nat
  maxPosId : Nat
  overlaps : List Overlap
deriving DecidableEq

/-- The per-hit min/max tracker update at the end of the sweep body. -/
def chainUpdateMinMax (st : ChainState) (i : Nat) (combo : Nat) : ChainState :=
  let stMin := if combo < st.minTargetQueryPosCombo then
    { st with minPosId := i, minTargetQueryPosCombo := combo } else st
  if combo > stMin.maxTargetQueryPosCombo then
    { stMin with maxPosId := i, maxTargetQueryPosCombo := combo } else stMin

/-- The admission filter applied to each candidate overlap. -/
def overlapAccepted (ovl : Overlap) (minNumSeeds minChainSpan : Int)
    (skipSelfHits skipSymmetricOverlaps : Bool) : Prop :=
  ovl.NumSeeds ≥ minNumSeeds ∧ overlapASpan ovl > minChainSpan ∧
  overlapBSpan ovl > minChainSpan ∧
  (skipSelfHits = false ∨ (skipSelfHits = true ∧ ovl.Bid ≠ ovl.Aid)) ∧
  (skipSymmetricOverlaps = false ∨
    (skipSymmetricOverlaps = true ∧ ovl.Bid < ovl.Aid))

instance (ovl : Overlap) (mns mcs : Int) (ssh sso : Bool) :
    Decidable (overlapAccepted ovl mns mcs ssh sso) := by
  unfold overlapAccepted
  infer_instance

/-- The flush after the sweep loop of `Mapper::FormDiagonalAnchors_`
(the source guards it with `(numHits - beginId) > 0`). -/
def chainFlush (sortedHits : List SeedHit) (querySeq : QuerySeq)
    (indexCache : SeedDBIndexCache) (minNumSeeds minChainSpan : Int)
    (skipSelfHits skipSymmetricOverlaps : Bool) (numHits : Nat)
    (st : ChainState) : Except String (List Overlap) :=
  if (numHits : Int) - (st.beginId : Int) > 0 then
    match makeOverlap sortedHits querySeq indexCache st.beginId numHits
        st.minPosId st.maxPosId with
    | .error msg => .error msg
    | .ok ovl =>
      .ok (if overlapAccepted ovl minNumSeeds minChainSpan skipSelfHits
        skipSymmetricOverlaps then st.overlaps ++ [ovl] else st.overlaps)
  else .ok st.overlaps

/-- The sweep loop of `Mapper::FormDiagonalAnchors_`, one iteration per
index `i` while `i < numHits`, then the final flush.  `rem` is the loop's
remaining trip count (`numHits - i` at every real call site), passed as
structural fuel so that the function computes by reduction; when it is
exhausted `i = numHits` and the flush runs, exactly as in the source. -/
def chainSweep (sortedHits : List SeedHit) (querySeq : QuerySeq)
    (indexCache : SeedDBIndexCache)
    (chainBandwidth minNumSeeds minChainSpan : Int)
    (skipSelfHits skipSymmetricOverlaps : Bool) (numHits : Nat)
    (rem i : Nat) (st : ChainState) : Except String (List Overlap) :=
  match rem with
  | 0 => chainFlush sortedHits querySeq indexCache minNumSeeds minChainSpan
      skipSelfHits skipSymmetricOverlaps numHits st
  | rem' + 1 =>
    if i < numHits then
      let prevHit := sortedHits.getD st.beginId dummySeedHit
      let currHit := sortedHits.getD i dummySeedHit
      let currDiag := seedHitDiagonal currHit
      let diagDiff := |currDiag - st.beginDiag|
      let targetQueryPosCombo := posCombo currHit
      if currHit.targetId ≠ prevHit.targetId ∨
          currHit.targetRev ≠ prevHit.targetRev ∨ diagDiff > chainBandwidth then
        match makeOverlap sortedHits querySeq indexCache st.beginId i
            st.minPosId st.maxPosId with
        | .error msg => .error msg
        | .ok ovl =>
          let newOverlaps :=
            if overlapAccepted ovl minNumSeeds minChainSpan skipSelfHits
                skipSymmetricOverlaps then st.overlaps ++ [ovl] else st.overlaps
          let st1 : ChainState :=
            { beginId := i, beginDiag := currDiag,
              minTargetQueryPosCombo := targetQueryPosCombo,
              maxTargetQueryPosCombo := targetQueryPosCombo,
              minPosId := i, maxPosId := i, overlaps := newOverlaps }
          chainSweep sortedHits querySeq indexCache chainBandwidth minNumSeeds
            minChainSpan skipSelfHits skipSymmetricOverlaps numHits rem' (i + 1)
            (chainUpdateMinMax st1 i targetQueryPosCombo)
      else
        chainSweep sortedHits querySeq indexCache chainBandwidth minNumSeeds
          minChainSpan skipSelfHits skipSymmetricOverlaps numHits rem' (i + 1)
          (chainUpdateMinMax st i targetQueryPosCombo)
    else
      chainFlush sortedHits querySeq indexCache minNumSeeds minChainSpan
        skipSelfHits skipSymmetricOverlaps numHits st

/-- Embedding of `Mapper::FormDiagonalAnchors_`. -/
def formDiagonalAnchors (sortedHits : List SeedHit) (querySeq : QuerySeq)
    (indexCache : SeedDBIndexCache)
    (chainBandwidth minNumSeeds minChainSpan : Int)
    (skipSelfHits skipSymmetricOverlaps : Bool) :
    Except String (List Overlap) :=
  if sortedHits.isEmpty then .ok []
  else
    let h0 := sortedHits.getD 0 dummySeedHit
    chainSweep sortedHits querySeq indexCache chainBandwidth minNumSeeds
      minChainSpan skipSelfHits skipSymmetricOverlaps sortedHits.length
      sortedHits.length 0
      { beginId := 0, beginDiag := seedHitDiagonal h0,
        minTargetQueryPosCombo := posCombo h0,
        maxTargetQueryPosCombo := posCombo h0,
        minPosId := 0, maxPosId := 0, overlaps := [] }

/-! ### Mapper alignment (Mapper::AlignOverlap_)

The banded SES primitive is out of scope (declared in
`pacbio/alignment/SesDistanceBanded.h`), so it is a parameter
`ses (querySlice) (targetSlice) (dMax) (bandwidth)`. -/

/-- Result record of the banded SES primitive (`SesResults`). -/
structure SesResults where
  lastQueryPos : Int
  lastTargetPos : Int
  diffs : Int
deriving DecidableEq

/-- C++ `double` → `int32_t` conversion: truncation toward zero. -/
def ratTruncToInt (q : ℚ) : Int :=
  if 0 ≤ q then ⌊q⌋ else -⌊-q⌋

/-- Reverse pass and finalization of `Mapper::AlignOverlap_` (the code
from the `Align reverse pass` block on): extends leftwards from the
original `Astart`/`Bstart` over the reversed query, then assigns the final
score and identity.  `retB` is the overlap after the forward pass and
`diffsRight` the forward pass's edit distance. -/
def alignOverlapReverse (ses : List Char → List Char → Int → Int → SesResults)
    (revCmpFn : List Char → Int → Int → List Char)
    (targetBases : List Char) (reverseQuerySeq : List Char)
    (ovl retB : Overlap) (diffsRight : Int)
    (alignBandwidth alignMaxDiff : ℚ) : Except String Overlap :=
  let qStart2 := retB.Alen - retB.Astart
  let qEnd2 := retB.Alen
  let qSpan2 := qEnd2 - qStart2
  let tStartFwd2 := if retB.Brev then retB.Blen - retB.Bend else retB.Bstart
  let tEndFwd2 := if retB.Brev then retB.Blen - retB.Bstart else retB.Bend
  match (if ovl.Brev then
      fetchTargetSubsequence revCmpFn targetBases tEndFwd2 retB.Blen (!retB.Brev)
    else
      fetchTargetSubsequence revCmpFn targetBases 0 tStartFwd2 (!retB.Brev)) with
  | .error msg => .error msg
  | .ok tSeq2 =>
    let dMax2 := ratTruncToInt ((ovl.Alen : ℚ) * alignMaxDiff - (diffsRight : ℚ))
    let bandwidth2 := ratTruncToInt ((min ovl.Blen ovl.Alen : ℚ) * alignBandwidth)
    let sesResult2 := ses ((reverseQuerySeq.drop qStart2.toNat).take qSpan2.toNat)
      tSeq2 dMax2 bandwidth2
    let retC := { retB with Astart := ovl.Astart - sesResult2.lastQueryPos,
                            Bstart := ovl.Bstart - sesResult2.lastTargetPos,
                            EditDistance := diffsRight + sesResult2.diffs }
    let retD := { retC with
      Score := -((max (overlapASpan retC) (overlapBSpan retC) : Int) : ℚ) }
    let span : ℚ := ((max (overlapASpan retD) (overlapBSpan retD) : Int) : ℚ)
    .ok { retD with Identity :=
      100 * (if span ≠ 0 then (span - (retD.EditDistance : ℚ)) / span else -2) }

/-- Embedding of `Mapper::AlignOverlap_`: two-pass banded extension.  The
forward pass extends from `(Astart, Bstart)` and is followed by
`alignOverlapReverse` (the reverse pass and finalization). -/
def alignOverlap (ses : List Char → List Char → Int → Int → SesResults)
    (revCmpFn : List Char → Int → Int → List Char)
    (targetBases : List Char) (querySeq : QuerySeq)
    (reverseQuerySeq : List Char) (ovl : Overlap)
    (alignBandwidth alignMaxDiff : ℚ) : Except String Overlap :=
  let qStart := ovl.Astart
  let qEnd := ovl.Alen
  let qSpan := qEnd - qStart
  let tStartFwd := if ovl.Brev then ovl.Blen - ovl.Bend else ovl.Bstart
  let tEndFwd := if ovl.Brev then ovl.Blen - ovl.Bstart else ovl.Bend
  match (if ovl.Brev then
      fetchTargetSubsequence revCmpFn targetBases 0 tEndFwd ovl.Brev
    else
      fetchTargetSubsequence revCmpFn targetBases tStartFwd ovl.Blen ovl.Brev) with
  | .error msg => .error msg
  | .ok tseq =>
    let dMax := ratTruncToInt ((ovl.Alen : ℚ) * alignMaxDiff)
    let bandwidth := ratTruncToInt ((min ovl.Blen ovl.Alen : ℚ) * alignBandwidth)
    let sesResult := ses ((querySeq.bases.drop qStart.toNat).take qSpan.toNat)
      tseq dMax bandwidth
    let retA := { ovl with Aend := ovl.Astart + sesResult.lastQueryPos,
                           Bend := ovl.Bstart + sesResult.lastTargetPos,
                           EditDistance := sesResult.diffs }
    let retB := { retA with
      Score := -((max (overlapASpan retA) (overlapBSpan retA) : Int) : ℚ) }
    alignOverlapReverse ses revCmpFn targetBases reverseQuerySeq ovl retB
      sesResult.diffs alignBandwidth alignMaxDiff

/-- SES stub for the C6 counterexample: never advances. -/
def sesZero : List Char → List Char → Int → Int → SesResults :=
  fun _ _ _ _ => { lastQueryPos := 0, lastTargetPos := 0, diffs := 0 }

/-- Zero-length overlap for the C6 counterexample (`span = 0`). -/
def ovlZero : Overlap := createOverlap 0 1 0 0 false 0 0 0 false 0 0 0 (-1) 0

/-- Empty query for the C6 counterexample. -/
def qSeqEmpty : QuerySeq := { id := 0, bases := [] }

/-- SES behaviour for scenario S5, keyed on the `dMax` budget: the forward
pass (`dMax = 1000`) advances 1000 positions on both sequences with 10
diffs; the reverse pass (`dMax = 990`) does not extend. -/
def sesS5 : List Char → List Char → Int → Int → SesResults :=
  fun _ _ dMax _ =>
    if dMax = 1000 then { lastQueryPos := 1000, lastTargetPos := 1000, diffs := 10 }
    else { lastQueryPos := 0, lastTargetPos := 0, diffs := 0 }

/-- Scenario S5 query (the SES stub ignores the bases). -/
def queryS5 : QuerySeq := { id := 0, bases := [] }

/-- Scenario S5 candidate overlap before alignment: `Alen = 1000`. -/
def ovlS5 : Overlap := createOverlap 0 1 0 0 false 0 0 1000 false 0 0 0 (-1) 0

/-- Scenario S5 aligned result: `ASpan = BSpan = 1000`, edit distance 10,
`Score = -1000`, `Identity = 99`. -/
def resS5 : Overlap := createOverlap 0 1 (-1000) 99 false 0 1000 1000 false 0 1000 0 10 0

/-! ### The 128-bit hit-sort key (Mapper::PackSeedHitWithDiagonalTo128_) -/

/-- C `(__int128)x & MASK_32bit`: the low 32 bits of a (sign-extended)
value, as a natural number. -/
def mask32 (x : Int) : Nat := (x % (2 ^ 32 : Int)).toNat

/-- Embedding of `Mapper::PackSeedHitWithDiagonalTo128_`: the 128-bit key
bit pattern as a natural number.  The five masked fields are placed at bit
offsets 97, 96, 64, 32 and 0; they occupy disjoint bit ranges, so the
bitwise ORs of the source are sums here, and the truncation of the
`targetId` field at bit 128 is the final `% 2^128`. -/
def packSeedHitWithDiagonalTo128 (sh : SeedHit) : Nat :=
  (mask32 sh.targetId * 2 ^ 97 +
   mask32 (if sh.targetRev then 1 else 0) * 2 ^ 96 +
   mask32 (sh.targetPos - sh.queryPos) * 2 ^ 64 +
   mask32 sh.targetPos * 2 ^ 32 +
   mask32 sh.queryPos) % 2 ^ 128

/-- Reading of a 128-bit pattern as the signed `__int128` value compared by
`std::sort`'s `<`. -/
def int128OfBits (u : Nat) : Int :=
  if u < 2 ^ 127 then (u : Int) else (u : Int) - 2 ^ 128

/-- The strict hit-sort order of `Mapper::Map`. -/
def packLT (a b : SeedHit) : Prop :=
  int128OfBits (packSeedHitWithDiagonalTo128 a) <
    int128OfBits (packSeedHitWithDiagonalTo128 b)

/-- The reflexive hit-sort order (what `std::sort`'s postcondition gives
for consecutive elements: `¬(b < a)`). -/
def packLE (a b : SeedHit) : Prop :=
  int128OfBits (packSeedHitWithDiagonalTo128 a) ≤
    int128OfBits (packSeedHitWithDiagonalTo128 b)

instance : DecidableRel packLT := by
  unfold packLT
  infer_instance

instance : DecidableRel packLE := by
  unfold packLE
  infer_instance

/-- The grouping key of the hit sort: `(targetId, targetRev)`. -/
def hitGroup (h : SeedHit) : Int × Bool := (h.targetId, h.targetRev)

/-- All hits of one `(targetId, targetRev)` group are contiguous. -/
def groupsContiguous (l : List SeedHit) : Prop :=
  ∀ i j k : Fin l.length, i ≤ j → j ≤ k →
    hitGroup (l.get i) = hitGroup (l.get k) →
    hitGroup (l.get j) = hitGroup (l.get i)

/-- Diagonals are non-decreasing inside each group (the claim's reading). -/
def diagsNondecreasing (l : List SeedHit) : Prop :=
  ∀ i j : Fin l.length, i ≤ j → hitGroup (l.get i) = hitGroup (l.get j) →
    seedHitDiagonal (l.get i) ≤ seedHitDiagonal (l.get j)

/-- The unsigned 32-bit images of the diagonals are non-decreasing inside
each group (what the masked packing actually guarantees). -/
def diagsMod32Nondecreasing (l : List SeedHit) : Prop :=
  ∀ i j : Fin l.length, i ≤ j → hitGroup (l.get i) = hitGroup (l.get j) →
    mask32 (seedHitDiagonal (l.get i)) ≤ mask32 (seedHitDiagonal (l.get j))

instance (l : List SeedHit) : Decidable (groupsContiguous l) := by
  unfold groupsContiguous
  infer_instance

instance (l : List SeedHit) : Decidable (diagsNondecreasing l) := by
  unfold diagsNondecreasing
  infer_instance

instance (l : List SeedHit) : Decidable (diagsMod32Nondecreasing l) := by
  unfold diagsMod32Nondecreasing
  infer_instance

/-- C4 counterexample hits: same `(targetId=0, rev=false)` group, with
diagonals −1 (`targetPos=0, queryPos=1`) and +1 (`targetPos=1, queryPos=0`). -/
def hitDiagNeg : SeedHit :=
  { targetId := 0, targetRev := false, targetPos := 0, rsv := 0, queryPos := 1 }

/-- Companion hit of `hitDiagNeg` with diagonal +1. -/
def hitDiagPos : SeedHit :=
  { targetId := 0, targetRev := false, targetPos := 1, rsv := 0, queryPos := 0 }

/-- The top 32 bits of the packed hit-sort key:
`2 * targetId + targetRev` (for in-range ids). -/
def hitHi (h : SeedHit) : Nat :=
  2 * h.targetId.toNat + (if h.targetRev then 1 else 0)

/-- The low 96 bits of the packed hit-sort key. -/
def hitLo (h : SeedHit) : Nat :=
  mask32 (h.targetPos - h.queryPos) * 2 ^ 64 + mask32 h.targetPos * 2 ^ 32 +
    mask32 h.queryPos

/-! ### Predicates and fixtures for the chaining claim (C3) -/

/-- Well-formedness of a hit list against the query and the cache: every
hit's positions lie inside the respective sequences and its target ordinal
is valid. -/
def hitsWellFormed (hits : List SeedHit) (querySeq : QuerySeq)
    (cache : SeedDBIndexCache) : Prop :=
  ∀ h ∈ hits, 0 ≤ h.queryPos ∧ h.queryPos ≤ (querySeq.bases.length : Int) ∧
    0 ≤ h.targetId ∧ h.targetId < (cache.seedLines.length : Int) ∧
    0 ≤ h.targetPos ∧
    h.targetPos ≤ (cache.seedLines.getD h.targetId.toNat dummySeedsLine).numBases

/-- The invariant claimed for every overlap emitted by the chainer:
coordinate sanity on both sequences, and a nonempty contributing group of
hits all sharing the overlap's `(Bid, Brev)`. -/
def overlapChainInvariant (hits : List SeedHit) (o : Overlap) : Prop :=
  0 ≤ o.Astart ∧ o.Astart ≤ o.Aend ∧ o.Aend ≤ o.Alen ∧
  0 ≤ o.Bstart ∧ o.Bstart ≤ o.Bend ∧ o.Bend ≤ o.Blen ∧
  ∃ b e, b < e ∧ e ≤ hits.length ∧
    ∀ j, b ≤ j → j < e →
      (hits.getD j dummySeedHit).targetId = o.Bid ∧
      (hits.getD j dummySeedHit).targetRev = o.Brev

/-- C3 counterexample fixture: two colinear hits (equal diagonal −250) with
query positions beyond the query length 200. -/
def hitsC3 : List SeedHit :=
  [{ targetId := 0, targetRev := false, targetPos := 0, rsv := 0, queryPos := 250 },
   { targetId := 0, targetRev := false, targetPos := 50, rsv := 0, queryPos := 300 }]

/-- C3 counterexample query: id 1, 200 bases. -/
def queryC3 : QuerySeq := { id := 1, bases := List.replicate 200 'A' }

/-- C3 counterexample cache: one target of 200 bases. -/
def cacheC3 : SeedDBIndexCache :=
  { version := [],
    seedParams := { KmerSize := 30, MinimizerWindow := 80, UseHPC := false,
                    MaxHPCLen := 10, UseRC := true },
    fileLines := [],
    seedLines := [{ dummySeedsLine with seqId := 0, numBases := 200 }],
    blockLines := [] }

/-- C3 witness fixture: a single in-range hit. -/
def hitsC3ok : List SeedHit :=
  [{ targetId := 0, targetRev := false, targetPos := 5, rsv := 0, queryPos := 10 }]


/-! ### SeedDB index serializer and loaders (src/seeddb/SeedDBIndexCache.cpp)

The `SeedDBParameters` class defaults live in a header outside the
sources, so every parser takes the default-constructed record as a
parameter `dflt`.  C++ stream formatting of `bool` writes `1`/`0`. -/

/-- Formatting of a `bool` field by `operator<<` (no `boolalpha`): `1` or `0`. -/
def emitBool (b : Bool) : List Char := if b then ['1'] else ['0']

/-- Body (without the trailing newline) of the `P` line written by
`operator<<(std::ostream&, const SeedDBIndexCache&)`: the five parameters
as `k=..,w=..,hpc=..,hpc_len=..,rc=..`. -/
def emitPBody (p : SeedDBParameters) : List Char :=
  ['k', '='] ++ intToChars p.KmerSize ++
  [',', 'w', '='] ++ intToChars p.MinimizerWindow ++
  [',', 'h', 'p', 'c', '='] ++ emitBool p.UseHPC ++
  [',', 'h', 'p', 'c', '_', 'l', 'e', 'n', '='] ++ intToChars p.MaxHPCLen ++
  [',', 'r', 'c', '='] ++ emitBool p.UseRC

/-- Body of one emitted `F` line: tab-separated fields. -/
def emitFileBody (fl : SeedDBFileLine) : List Char :=
  'F' :: '\t' :: intToChars fl.fileId ++
  '\t' :: fl.filename ++
  '\t' :: intToChars fl.numSequences ++
  '\t' :: intToChars fl.numBytes

/-- Body of one emitted `S` line: tab-separated fields. -/
def emitSeedsBody (sl : SeedDBSeedsLine) : List Char :=
  'S' :: '\t' :: intToChars sl.seqId ++
  '\t' :: sl.header ++
  '\t' :: intToChars sl.fileId ++
  '\t' :: intToChars sl.fileOffset ++
  '\t' :: intToChars sl.numBytes ++
  '\t' :: intToChars sl.numBases ++
  '\t' :: intToChars sl.numSeeds

/-- Body of one emitted `B` line: tab-separated fields. -/
def emitBlockBody (bl : SeedDBBlockLine) : List Char :=
  'B' :: '\t' :: intToChars bl.blockId ++
  '\t' :: intToChars bl.startSeqId ++
  '\t' :: intToChars bl.endSeqId ++
  '\t' :: intToChars bl.numBytes

/-- The line bodies written by `operator<<`, in source order: `V`, the
single `P` line, then all `F`, all `S`, all `B` lines. -/
def emitBodies (r : SeedDBIndexCache) : List (List Char) :=
  ('V' :: '\t' :: r.version) ::
  ('P' :: '\t' :: emitPBody r.seedParams) ::
  (r.fileLines.map emitFileBody ++ r.seedLines.map emitSeedsBody ++
    r.blockLines.map emitBlockBody)

/-- Embedding of `operator<<(std::ostream&, const SeedDBIndexCache&)`:
each line body followed by its `"\n"`, concatenated in source order. -/
def emitCache (r : SeedDBIndexCache) : List Char :=
  ((emitBodies r).map (fun b => b ++ ['\n'])).flatten

/-- Loop body of `ParseSeedDBParams`: fold the comma-separated pieces,
skipping empty pieces, requiring `name=value` shape, and assigning the
five known keys via `std::stoi` (which throws when no conversion is
possible); unknown keys are ignored.  `int` → `bool` conversion is
`≠ 0`. -/
def parseParamsGo (ret : SeedDBParameters) :
    List (List Char) → Except String SeedDBParameters
  | [] => .ok ret
  | p :: rest =>
    if p.isEmpty then parseParamsGo ret rest
    else
      let values := p.splitOn '='
      if values.length ≠ 2 then
        .error "Parameter is not of form name=value."
      else
        let name := values.getD 0 []
        let v := values.getD 1 []
        if name = ['k'] then
          match stoiM v with
          | none => .error "stoi: no conversion."
          | some i => parseParamsGo { ret with KmerSize := i } rest
        else if name = ['w'] then
          match stoiM v with
          | none => .error "stoi: no conversion."
          | some i => parseParamsGo { ret with MinimizerWindow := i } rest
        else if name = ['h', 'p', 'c'] then
          match stoiM v with
          | none => .error "stoi: no conversion."
          | some i => parseParamsGo { ret with UseHPC := i ≠ 0 } rest
        else if name = ['h', 'p', 'c', '_', 'l', 'e', 'n'] then
          match stoiM v with
          | none => .error "stoi: no conversion."
          | some i => parseParamsGo { ret with MaxHPCLen := i } rest
        else if name = ['r', 'c'] then
          match stoiM v with
          | none => .error "stoi: no conversion."
          | some i => parseParamsGo { ret with UseRC := i ≠ 0 } rest
        else parseParamsGo ret rest

/-- Embedding of `ParseSeedDBParams`: split on `,` and fold. -/
def parseSeedDBParams (dflt : SeedDBParameters) (paramsStr : List Char) :
    Except String SeedDBParameters :=
  parseParamsGo dflt (paramsStr.splitOn ',')

/-- A fresh cache as the loaders build it: empty tables, empty version,
default-constructed parameters. -/
def emptyCacheWith (dflt : SeedDBParameters) : SeedDBIndexCache :=
  { version := [], seedParams := dflt, fileLines := [], seedLines := [],
    blockLines := [] }

/-- Model of `istream >> (int&)` with the failbit state threaded as `(cursor,
failed)`: once failed, extraction is a no-op that keeps the current value
`cur`; a fresh failure stores `0` (C++11) and sets the failbit. -/
def extInt (cur : Int) : List Char × Bool → Int × (List Char × Bool)
  | (s, true) => (cur, (s, true))
  | (s, false) =>
    match scanInt s with
    | some (i, r) => (i, (r, false))
    | none => (0, (s, true))

/-- Model of `istream >> (std::string&)`: on failure the target keeps its current
value and the failbit is set. -/
def extStr (cur : List Char) : List Char × Bool → List Char × (List Char × Bool)
  | (s, true) => (cur, (s, true))
  | (s, false) =>
    match scanTok s with
    | some (t, r) => (t, (r, false))
    | none => (cur, (s, true))

/-- One iteration of the `std::istream` loader's `while (getline)` loop:
read the token character, then the per-token extractions.  Extraction
results are never checked, so short lines silently leave fields at their
defaults; an unreadable token (whitespace-only line) leaves `token`
indeterminate in the source and is modelled by the unknown-token throw. -/
def loadStreamLine (dflt : SeedDBParameters) (cache : SeedDBIndexCache)
    (line : List Char) : Except String SeedDBIndexCache :=
  match scanChar line with
  | none => .error "Unknown token found when parsing the index."
  | some (token, rest) =>
    if token = 'V' then
      .ok { cache with version := (extStr cache.version (rest, false)).1 }
    else if token = 'P' then
      match parseSeedDBParams dflt (extStr [] (rest, false)).1 with
      | .error e => .error e
      | .ok ps => .ok { cache with seedParams := ps }
    else if token = 'F' then
      let r1 := extInt 0 (rest, false)
      let r2 := extStr [] r1.2
      let r3 := extInt 0 r2.2
      let r4 := extInt 0 r3.2
      .ok { cache with fileLines := cache.fileLines ++
        [{ fileId := r1.1, filename := r2.1, numSequences := r3.1,
           numBytes := r4.1 }] }
    else if token = 'S' then
      let r1 := extInt 0 (rest, false)
      let r2 := extStr [] r1.2
      let r3 := extInt 0 r2.2
      let r4 := extInt 0 r3.2
      let r5 := extInt 0 r4.2
      let r6 := extInt 0 r5.2
      let r7 := extInt 0 r6.2
      if r1.1 ≠ (cache.seedLines.length : Int) then
        .error "Invalid seqId for line."
      else
        .ok { cache with seedLines := cache.seedLines ++
          [{ seqId := r1.1, header := r2.1, fileId := r3.1,
             fileOffset := r4.1, numBytes := r5.1, numBases := r6.1,
             numSeeds := r7.1 }] }
    else if token = 'B' then
      let r1 := extInt 0 (rest, false)
      let r2 := extInt 0 r1.2
      let r3 := extInt 0 r2.2
      let r4 := extInt 0 r3.2
      .ok { cache with blockLines := cache.blockLines ++
        [{ blockId := r1.1, startSeqId := r2.1, endSeqId := r3.1,
           numBytes := r4.1 }] }
    else .error "Unknown token found when parsing the index."

/-- The `std::istream` loader's line loop: empty lines are skipped
(`if (line.empty()) continue`), errors abort. -/
def loadStreamGo (dflt : SeedDBParameters) :
    SeedDBIndexCache → List (List Char) → Except String SeedDBIndexCache
  | cache, [] => .ok cache
  | cache, l :: ls =>
    if l.isEmpty then loadStreamGo dflt cache ls
    else
      match loadStreamLine dflt cache l with
      | .error e => .error e
      | .ok c2 => loadStreamGo dflt c2 ls

/-- Embedding of `LoadSeedDBIndexCache(std::istream&, ...)`.  `std::getline`
yields exactly the `'\n'`-separated pieces of the input (`List.splitOn`;
the final empty piece of a newline-terminated input is skipped by the
empty-line `continue`, matching `getline` hitting EOF there).  After the
loop, an index with no `S` records is rejected. -/
def loadSeedDBIndexCacheStream (dflt : SeedDBParameters) (input : List Char) :
    Except String SeedDBIndexCache :=
  match loadStreamGo dflt (emptyCacheWith dflt) (input.splitOn '\n') with
  | .error e => .error e
  | .ok cache =>
    if cache.seedLines.isEmpty then
      .error "There are no sequences in the input index file."
    else .ok cache

/-- The `P`-branch whitespace-skipping loop of the `FILE*` loader:
`for (offset = 1; offset < lineLen && (offset == ' ' || offset == '\t');
++offset)`.  The condition compares the *index* `offset` (not
`line[offset]`) with the character codes 32 and 9, so starting from 1 it
is immediately false.  Embedded faithfully with the remaining trip count
as fuel. -/
def pSkipFrom (lineLen : Nat) : Nat → Nat → Nat
  | 0, offset => offset
  | fuel + 1, offset =>
    if offset < lineLen ∧ (offset = Char.toNat ' ' ∨ offset = Char.toNat '\t')
    then pSkipFrom lineLen fuel (offset + 1)
    else offset

/-- The offset at which the `FILE*` loader's `P` branch starts the
parameter string (`lineLen` is the getline buffer length in the source;
the result is 1 for every value). -/
def pSkipOffset (lineLen : Nat) : Nat := pSkipFrom lineLen lineLen 1

/-- Splitting like `getline(&line, ...)`: each piece keeps its terminating
`'\n'`; a last unterminated piece is kept, and nothing follows a final
`'\n'`. -/
def getlineSplitGo : List Char → List Char → List (List Char)
  | [], acc => if acc.isEmpty then [] else [acc.reverse]
  | c :: rest, acc =>
    if c = '\n' then (acc.reverse ++ ['\n']) :: getlineSplitGo rest []
    else getlineSplitGo rest (c :: acc)

/-- The sequence of lines read by the `FILE*` loader's `getline` loop. -/
def getlineSplit (s : List Char) : List (List Char) := getlineSplitGo s []

/-- One iteration of the `FILE*` loader's loop: `token = line[0]` (the
line, unlike in the stream loader, still carries its `'\n'`), then
`sscanf` conversions checked against the expected count — any failed
conversion makes `numReadItems` fall short and throws.  The `V`/`F`/`S`/`B`
conversion chains are `%d`/`%s` scans; the `P` branch hands
`line + offset` with the buggy `offset` to `ParseSeedDBParams`. -/
def loadFileLine (dflt : SeedDBParameters) (cache : SeedDBIndexCache)
    (line : List Char) : Except String SeedDBIndexCache :=
  let token := line.headD '\x00'
  if token = 'V' then
    match scanTok (line.drop 1) with
    | none => .error "Problem parsing line."
    | some (t, _) => .ok { cache with version := t }
  else if token = 'P' then
    match parseSeedDBParams dflt (line.drop (pSkipOffset line.length)) with
    | .error e => .error e
    | .ok ps => .ok { cache with seedParams := ps }
  else if token = 'F' then
    match scanInt (line.drop 1) with
    | none => .error "Problem parsing line."
    | some (fileId, r1) =>
      match scanTok r1 with
      | none => .error "Problem parsing line."
      | some (fname, r2) =>
        match scanInt r2 with
        | none => .error "Problem parsing line."
        | some (numSequences, r3) =>
          match scanInt r3 with
          | none => .error "Problem parsing line."
          | some (numBytes, _) =>
            .ok { cache with fileLines := cache.fileLines ++
              [{ fileId := fileId, filename := fname,
                 numSequences := numSequences, numBytes := numBytes }] }
  else if token = 'S' then
    match scanInt (line.drop 1) with
    | none => .error "Problem parsing line."
    | some (seqId, r1) =>
      match scanTok r1 with
      | none => .error "Problem parsing line."
      | some (header, r2) =>
        match scanInt r2 with
        | none => .error "Problem parsing line."
        | some (fileId, r3) =>
          match scanInt r3 with
          | none => .error "Problem parsing line."
          | some (fileOffset, r4) =>
            match scanInt r4 with
            | none => .error "Problem parsing line."
            | some (numBytes, r5) =>
              match scanInt r5 with
              | none => .error "Problem parsing line."
              | some (numBases, r6) =>
                match scanInt r6 with
                | none => .error "Problem parsing line."
                | some (numSeeds, _) =>
                  if seqId ≠ (cache.seedLines.length : Int) then
                    .error "Invalid seqId for line."
                  else
                    .ok { cache with seedLines := cache.seedLines ++
                      [{ seqId := seqId, header := header, fileId := fileId,
                         fileOffset := fileOffset, numBytes := numBytes,
                         numBases := numBases, numSeeds := numSeeds }] }
  else if token = 'B' then
    match scanInt (line.drop 1) with
    | none => .error "Problem parsing line."
    | some (blockId, r1) =>
      match scanInt r1 with
      | none => .error "Problem parsing line."
      | some (startSeqId, r2) =>
        match scanInt r2 with
        | none => .error "Problem parsing line."
        | some (endSeqId, r3) =>
          match scanInt r3 with
          | none => .error "Problem parsing line."
          | some (numBytes, _) =>
            .ok { cache with blockLines := cache.blockLines ++
              [{ blockId := blockId, startSeqId := startSeqId,
                 endSeqId := endSeqId, numBytes := numBytes }] }
  else .error "Unknown token found when parsing the index."

/-- The `FILE*` loader's `getline` loop. -/
def loadFileGo (dflt : SeedDBParameters) :
    SeedDBIndexCache → List (List Char) → Except String SeedDBIndexCache
  | cache, [] => .ok cache
  | cache, l :: ls =>
    match loadFileLine dflt cache l with
    | .error e => .error e
    | .ok c2 => loadFileGo dflt c2 ls

/-- Embedding of `LoadSeedDBIndexCache(FILE*, ...)`.  Unlike the stream
loader, nothing checks `seedLines` at the end: the cache is returned as
built, even when no `S` record was seen. -/
def loadSeedDBIndexCacheFile (dflt : SeedDBParameters) (input : List Char) :
    Except String SeedDBIndexCache :=
  loadFileGo dflt (emptyCacheWith dflt) (getlineSplit input)

/-- Concrete default-parameters fixture for the loader witnesses. -/
def dfltW : SeedDBParameters :=
  { KmerSize := 19, MinimizerWindow := 10, UseHPC := false, MaxHPCLen := 10,
    UseRC := true }

/-- A minimal one-`S`-line stream input (space-separated fields). -/
def inputC8 : List Char :=
  ['S', ' ', '0', ' ', 'h', ' ', '0', ' ', '0', ' ', '0', ' ', '5', ' ', '2']

/-- The cache the stream loader builds from `inputC8`. -/
def cacheC8 : SeedDBIndexCache :=
  { version := [], seedParams := dfltW, fileLines := [],
    seedLines := [{ seqId := 0, header := ['h'], fileId := 0, fileOffset := 0,
                    numBytes := 0, numBases := 5, numSeeds := 2 }],
    blockLines := [] }

/-- A well-formed roundtrip fixture cache for C2. -/
def cacheC2W : SeedDBIndexCache :=
  { version := ['0', '.', '1'],
    seedParams := { KmerSize := 28, MinimizerWindow := 80, UseHPC := false,
                    MaxHPCLen := 10, UseRC := true },
    fileLines := [{ fileId := 0, filename := ['f', '.', 's'],
                    numSequences := 1, numBytes := 4 }],
    seedLines := [{ seqId := 0, header := ['h'], fileId := 0, fileOffset := 0,
                    numBytes := 16, numBases := 5, numSeeds := 1 }],
    blockLines := [{ blockId := 0, startSeqId := 0, endSeqId := 1,
                     numBytes := 16 }] }

/-- A cache whose version string contains a space: the C2 counterexample. -/
def cacheC2bad : SeedDBIndexCache :=
  { cacheC2W with version := ['a', ' ', 'b'] }

end Pancake

namespace Pancake

/-! ### Theorems for claim C7 -/

/-- C7 counterexample: at `seqStart = seqEnd = -5` on a length-10 sequence the
claimed failure condition holds (`seqStart < 0`), yet the fetcher returns the
empty string without an error, because the empty-range early return runs
before the range check.  So "fails iff the condition" is false as stated. -/
theorem c7_fetch_invalid_range_iff_refuted :
    fetchRangeBad (10 : Int) (-5) (-5) ∧
    fetchTargetSubsequence (fun b _ _ => b)
      ['A', 'C', 'G', 'T', 'A', 'C', 'G', 'T', 'A', 'C'] (-5) (-5) false =
      .ok [] := by
  constructor
  · left; decide
  · rfl

/-- C7 (amended): the fetcher fails with `InvalidRange` if and only if the
range is nonempty (`seqStart ≠ seqEnd`) and
`seqStart < 0 ∨ seqEnd < 0 ∨ seqStart > len ∨ seqEnd > len ∨ seqEnd < seqStart`;
an empty range (`seqStart = seqEnd`) always returns the empty string without
error, even when its endpoints are out of bounds. -/
theorem c7_fetch_error_iff (revCmpFn : List Char → Int → Int → List Char)
    (bases : List Char) (s e : Int) (rc : Bool) :
    (isErr (fetchTargetSubsequence revCmpFn bases s e rc) = true ↔
      (s ≠ e ∧ fetchRangeBad (bases.length : Int) s e)) ∧
    fetchTargetSubsequence revCmpFn bases s s rc = .ok [] := by
  constructor
  · unfold fetchTargetSubsequence fetchRangeBad
    by_cases h1 : e = s
    · simp [h1, isErr]
    · by_cases h2 : s < 0 ∨ e < 0 ∨ s > (bases.length : Int) ∨
          e > (bases.length : Int) ∨ e < s
      · simp [h1, h2, isErr]
        tauto
      · simp [h1, h2, isErr]
        by_cases h3 : rc <;> by_cases h4 : e = 0 <;> simp [h3, h4, isErr]
  · unfold fetchTargetSubsequence
    simp

/-! ### Seed index invariants (claim C1) -/

/-- Members of the slice `[s, e)` of a list are exactly the elements at
indices `s ≤ j < e` (when `e` is within bounds). -/
theorem slice_mem {α : Type} (l : List α) (d : α) (s e : Nat) (he : e ≤ l.length) :
    ∀ r ∈ (l.drop s).take (e - s), ∃ j, s ≤ j ∧ j < e ∧ l.getD j d = r := by
  intro r hr
  rw [List.mem_iff_getElem] at hr
  obtain ⟨i, hi, hget⟩ := hr
  have hlen : ((l.drop s).take (e - s)).length = min (e - s) (l.length - s) := by
    simp
  rw [hlen] at hi
  refine ⟨s + i, by omega, by omega, ?_⟩
  rw [List.getElem_take] at hget
  rw [List.getElem_drop] at hget
  rw [List.getD_eq_getElem l d (by omega)]
  exact hget

/-- Soundness of the hash-building scan: starting from a state whose current
run `[start, e)` with `e = i` is nonempty and all decodes to `prevKey`, every
entry of the result satisfies the hash invariant, and the result is
nonempty. -/
theorem buildHashGo_sound (dk : SeedRaw → Nat) (seeds : List SeedRaw) :
    ∀ (rem : List SeedRaw) (i start e prevKey : Nat)
      (acc : List (Nat × Nat × Nat)),
      rem = seeds.drop i → i ≤ seeds.length → e = i → start < e →
      (∀ j, start ≤ j → j < e → dk (seeds.getD j 0) = prevKey) →
      (∀ ent ∈ acc, hashEntryOK dk seeds ent) →
      (∀ ent ∈ buildHashGo dk rem i start e prevKey acc,
        hashEntryOK dk seeds ent) ∧
        buildHashGo dk rem i start e prevKey acc ≠ [] := by
  intro rem
  induction rem with
  | nil =>
    intro i start e prevKey acc hrem hi he hse hrun hacc
    have hlen : seeds.length ≤ i := List.drop_eq_nil_iff.mp hrem.symm
    simp only [buildHashGo, if_pos hse]
    refine ⟨?_, by simp⟩
    intro ent hent
    rcases List.mem_cons.mp hent with h | h
    · subst h
      exact ⟨hse, by show e ≤ seeds.length; omega, hrun⟩
    · exact hacc ent h
  | cons r rest ih =>
    intro i start e prevKey acc hrem hi he hse hrun hacc
    have hlt : i < seeds.length := by
      by_contra hcon
      have : seeds.drop i = [] := List.drop_eq_nil_of_le (by omega)
      rw [this] at hrem
      exact List.cons_ne_nil r rest hrem
    have hr : seeds.getD i 0 = r := by
      have h1 : seeds[i]? = some r := by
        rw [← List.head?_drop, ← hrem]
        rfl
      rw [List.getD_eq_getElem?_getD, h1]
      rfl
    have hrest : rest = seeds.drop (i + 1) := by
      have := congrArg List.tail hrem
      simpa [List.tail_drop] using this
    simp only [buildHashGo]
    by_cases hkey : dk r = prevKey
    · rw [if_pos hkey]
      refine ih (i + 1) start (e + 1) prevKey acc hrest (by omega) (by omega)
        (by omega) ?_ hacc
      intro j hj1 hj2
      by_cases hj : j < e
      · exact hrun j hj1 hj
      · have hje : j = e := by omega
        subst hje
        rw [he, hr]
        exact hkey
    · rw [if_neg hkey]
      refine ih (i + 1) i (i + 1) (dk r) _ hrest (by omega) rfl (by omega) ?_ ?_
      · intro j hj1 hj2
        have hji : j = i := by omega
        subst hji
        rw [hr]
      · intro ent hent
        rcases List.mem_cons.mp hent with h | h
        · subst h
          exact ⟨hse, by show e ≤ seeds.length; omega, hrun⟩
        · exact hacc ent h

/-- Every entry of the hash built by `SeedIndex::BuildHash_` satisfies the
hash invariant, and the hash is nonempty whenever the seed array is. -/
theorem buildHash_sound (dk : SeedRaw → Nat) (seeds : List SeedRaw) :
    (∀ ent ∈ buildHash dk seeds, hashEntryOK dk seeds ent) ∧
      (seeds ≠ [] → buildHash dk seeds ≠ []) := by
  cases seeds with
  | nil => simp [buildHash]
  | cons s0 rest =>
    have hstep : buildHash dk (s0 :: rest) = buildHashGo dk rest 1 0 1 (dk s0) [] := by
      simp [buildHash, buildHashGo]
    rw [hstep]
    have hrun : ∀ j, 0 ≤ j → j < 1 → dk ((s0 :: rest).getD j 0) = dk s0 := by
      intro j _ hj
      have hj0 : j = 0 := by omega
      subst hj0
      rfl
    have h := buildHashGo_sound dk (s0 :: rest) rest 1 0 1 (dk s0) []
      (by simp) (by simp) rfl (by omega) hrun (by simp)
    exact ⟨h.1, fun _ => h.2⟩

/-- A successful `hashFind` returns the range of an entry of the hash whose
key is the searched key. -/
theorem hashFind_spec (hash : List (Nat × Nat × Nat)) (key : Nat) (s e : Nat)
    (h : hashFind hash key = some (s, e)) :
    (key, s, e) ∈ hash := by
  unfold hashFind at h
  rw [Option.map_eq_some'] at h
  obtain ⟨ent, hfind, hmap⟩ := h
  have hmem := List.mem_of_find?_eq_some hfind
  have hpred := List.find?_some hfind
  have hkey : ent.1 = key := of_decide_eq_true hpred
  have : ent = (key, s, e) := by
    rcases ent with ⟨k0, s0, e0⟩
    simp at hmap hkey
    simp [hmap, hkey]
  rw [← this]
  exact hmem

/-- C1: for every seed index built from a seed array, every hash entry
`(start, end)` satisfies `0 ≤ start < end ≤ len(seeds)` with all seeds of
`[start, end)` decoding to the entry's key; consequently `get_seeds(k)`
returns a slice all of whose elements decode to `k`, and the empty slice
when no seed decodes to `k`. -/
theorem c1_seed_index_invariants (decode : SeedRaw → Seed) (seeds : List SeedRaw) :
    (∀ ent ∈ (buildSeedIndex (fun r => (decode r).key) seeds).hash,
      hashEntryOK (fun r => (decode r).key)
        (buildSeedIndex (fun r => (decode r).key) seeds).sortedSeeds ent) ∧
    (∀ k : Nat, ∀ r ∈ getSeeds (buildSeedIndex (fun r => (decode r).key) seeds) k,
      (decode r).key = k) ∧
    (∀ k : Nat, (∀ r ∈ seeds, (decode r).key ≠ k) →
      getSeeds (buildSeedIndex (fun r => (decode r).key) seeds) k = []) := by
  have hsound := buildHash_sound (fun r => (decode r).key)
    (List.insertionSort (fun a b => a ≤ b) seeds)
  refine ⟨hsound.1, ?_, ?_⟩
  · intro k r hr
    unfold getSeeds at hr
    cases hfind : hashFind (buildSeedIndex (fun r => (decode r).key) seeds).hash k with
    | none => rw [hfind] at hr; simp at hr
    | some se =>
      rcases se with ⟨s, e⟩
      rw [hfind] at hr
      have hmem := hashFind_spec _ _ _ _ hfind
      have hok := hsound.1 (k, s, e) hmem
      obtain ⟨hse, hlen, hrun⟩ := hok
      obtain ⟨j, hj1, hj2, hj3⟩ := slice_mem _ 0 s e hlen r hr
      rw [← hj3]
      exact hrun j hj1 hj2
  · intro k hk
    unfold getSeeds
    cases hfind : hashFind (buildSeedIndex (fun r => (decode r).key) seeds).hash k with
    | none => rfl
    | some se =>
      exfalso
      rcases se with ⟨s, e⟩
      have hmem := hashFind_spec _ _ _ _ hfind
      have hok := hsound.1 (k, s, e) hmem
      obtain ⟨hse, hlen, hrun⟩ := hok
      have hse' : s < e := hse
      have hlen' : e ≤ (List.insertionSort (fun a b => a ≤ b) seeds).length := hlen
      have hs : s < (List.insertionSort (fun a b => a ≤ b) seeds).length := by
        omega
      have hkey := hrun s (le_refl s) hse
      rw [List.getD_eq_getElem _ 0 hs] at hkey
      have hmems : (List.insertionSort (fun a b => a ≤ b) seeds)[s] ∈ seeds := by
        have hperm := List.perm_insertionSort (fun a b => a ≤ b) seeds
        exact hperm.mem_iff.mp (List.getElem_mem hs)
      exact hk _ hmems hkey

/-- Witness for C1 at a concrete input: the index over raw seeds
`[5, 3, 3]` with the identity key decoder has the hash entry `(3, 0, 2)`,
and the seed at position 0 of its slice decodes to key 3. -/
theorem c1_seed_index_invariants_witness :
    ((3, 0, 2) : Nat × Nat × Nat) ∈
      (buildSeedIndex (fun r => (decodeId r).key) [5, 3, 3]).hash ∧
    (decodeId ((buildSeedIndex (fun r => (decodeId r).key) [5, 3, 3]).sortedSeeds.getD 0 0)).key = 3 := by
  have hmem : ((3, 0, 2) : Nat × Nat × Nat) ∈
      (buildSeedIndex (fun r => (decodeId r).key) [5, 3, 3]).hash := by decide
  have h := (c1_seed_index_invariants decodeId [5, 3, 3]).1 (3, 0, 2) hmem
  exact ⟨hmem, h.2.2 0 (by decide) (by decide)⟩

/-! ### Frequency statistics out-of-bounds read (claim C9) -/

/-- C9: the code is wrong where the claim says the access is in bounds.
For every non-empty seed index, at `percentileCutoff = 0` the computed rank
is `cutoffId = floor(N * (1 - 0)) = N`, one past the end of the `N` sorted
frequencies, so `freqs[cutoffId]` in `SeedIndex::ComputeFrequencyStats` is
an out-of-bounds read (undefined behaviour in the C++; an explicit error
value in this model) even though the cutoff `0` passes the `[0, 1]` sanity
check. -/
theorem c9_percentile_zero_oob (decode : SeedRaw → Seed) (seeds : List SeedRaw)
    (hne : seeds ≠ []) :
    computeFrequencyStats (buildSeedIndex (fun r => (decode r).key) seeds) 0 =
      .error "out-of-bounds read of freqs in ComputeFrequencyStats" := by
  have hlen0 : seeds.length ≠ 0 := fun h => hne (List.length_eq_zero.mp h)
  have hsortne : List.insertionSort (fun a b => a ≤ b) seeds ≠ [] := by
    intro h
    have hl := congrArg List.length h
    rw [List.length_insertionSort] at hl
    simp at hl
    exact hne hl
  have hsound := buildHash_sound (fun r => (decode r).key)
    (List.insertionSort (fun a b => a ≤ b) seeds)
  have hhashne := hsound.2 hsortne
  unfold computeFrequencyStats
  rw [if_neg (by norm_num)]
  rw [if_neg (by simpa [List.isEmpty_iff] using hhashne)]
  have hfilter :
      (((buildSeedIndex (fun r => (decode r).key) seeds).hash.map
        (fun ent => ((ent.2.2 : Int) - (ent.2.1 : Int)))).filter
          (fun span => span ≠ 0)) =
      ((buildSeedIndex (fun r => (decode r).key) seeds).hash.map
        (fun ent => ((ent.2.2 : Int) - (ent.2.1 : Int)))) := by
    rw [List.filter_eq_self]
    intro a ha
    obtain ⟨ent, hent, hfa⟩ := List.mem_map.mp ha
    have hok := hsound.1 ent hent
    have h1 : ent.2.1 < ent.2.2 := hok.1
    simp only [← hfa]
    simp only [decide_eq_true_eq, ne_eq]
    omega
  rw [hfilter]
  set hash := (buildSeedIndex (fun r => (decode r).key) seeds).hash with hhash
  have hn : (hash.map (fun ent => ((ent.2.2 : Int) - (ent.2.1 : Int)))).length =
      hash.length := List.length_map _ _
  have hpos : 0 < hash.length := List.length_pos.mpr hhashne
  rw [if_neg (by rw [hn]; omega)]
  have hcut : (⌊((hash.map (fun ent => ((ent.2.2 : Int) - (ent.2.1 : Int)))).length : ℚ) *
      ((1 : ℚ) - 0)⌋ : Int) = (hash.length : Int) := by
    rw [hn]
    norm_num
  have hnone : (List.insertionSort (fun a b => a ≤ b)
      (hash.map (fun ent => ((ent.2.2 : Int) - (ent.2.1 : Int))))).get?
        ((hash.length : Int)).toNat = none := by
    rw [List.get?_eq_none, List.length_insertionSort, hn]
    simp
  simp only [hcut, hnone]

/-- Witness for C9: the concrete seed index over `[5, 3, 3]` (two distinct
keys, both buckets nonempty) hits the out-of-bounds read at cutoff 0. -/
theorem c9_percentile_zero_oob_witness :
    computeFrequencyStats (buildSeedIndex (fun r => (decodeId r).key) [5, 3, 3]) 0 =
      .error "out-of-bounds read of freqs in ComputeFrequencyStats" :=
  c9_percentile_zero_oob decodeId [5, 3, 3] (by decide)

/-! ### Hit collection and strand reflection (claim C5) -/

/-- C5: when query and target strands differ, `CollectHits` emits a hit with
`isRev = true` and target position reflected to the forward coordinate as
`numBases - (rawPos + kmerSize)`; when they agree, the raw position is used
with `isRev = false`.  In particular, for query seed `(key=7, pos=10,
rev=false)` against target seed `(key=7, seqId=4, pos=20, rev=true)` with
target `numBases = 100` and `kmerSize = 30`, the emitted hit is
`(targetId=4, isRev=true, targetPos=50, queryPos=10)`. -/
theorem c5_collect_hits_strand_reflection :
    (∀ (cache : SeedDBIndexCache) (kmer : Int) (q t : Seed)
      (sl : SeedDBSeedsLine),
      getSeedsLine cache t.seqID = .ok sl → q.seedRev ≠ t.seedRev →
      makeSeedHit cache kmer q t =
        .ok { targetId := t.seqID, targetRev := true,
              targetPos := sl.numBases - (t.pos + kmer), rsv := 0,
              queryPos := q.pos }) ∧
    (∀ (cache : SeedDBIndexCache) (kmer : Int) (q t : Seed),
      q.seedRev = t.seedRev →
      makeSeedHit cache kmer q t =
        .ok { targetId := t.seqID, targetRev := false, targetPos := t.pos,
              rsv := 0, queryPos := q.pos }) ∧
    collectHits decodeC5 cacheC5
      (buildSeedIndex (fun r => (decodeC5 r).key) [0]) [1] 0 =
      .ok [{ targetId := 4, targetRev := true, targetPos := 50, rsv := 0,
             queryPos := 10 }] := by
  refine ⟨?_, ?_, by decide⟩
  · intro cache kmer q t sl hsl hne
    simp [makeSeedHit, if_pos hne, hsl]
  · intro cache kmer q t heq
    simp [makeSeedHit, heq]
    rfl

/-- Witness for C5's general clauses at the concrete scenario inputs. -/
theorem c5_collect_hits_strand_reflection_witness :
    makeSeedHit cacheC5 30 (decodeC5 1) (decodeC5 0) =
      .ok { targetId := 4, targetRev := true, targetPos := 50, rsv := 0,
            queryPos := 10 } :=
  c5_collect_hits_strand_reflection.1 cacheC5 30 (decodeC5 1) (decodeC5 0)
    { dummySeedsLine with seqId := 4, numBases := 100 } (by decide) (by decide)

/-! ### Alignment finalization (claim C6) -/

/-- Finalization law of the reverse pass: whatever the SES results, the
returned overlap's score is minus the larger span, and its identity is
`100 * ((span - editDistance) / span)` when the larger span is nonzero and
`100 * (-2) = -200` otherwise. -/
theorem alignOverlapReverse_spec
    (ses : List Char → List Char → Int → Int → SesResults)
    (revCmpFn : List Char → Int → Int → List Char)
    (targetBases reverseQuerySeq : List Char) (ovl retB : Overlap)
    (diffsRight : Int) (bw md : ℚ) (res : Overlap)
    (hres : alignOverlapReverse ses revCmpFn targetBases reverseQuerySeq ovl
      retB diffsRight bw md = .ok res) :
    res.Score = -((max (overlapASpan res) (overlapBSpan res) : Int) : ℚ) ∧
    res.Identity =
      (if ((max (overlapASpan res) (overlapBSpan res) : Int) : ℚ) ≠ 0 then
        100 * ((((max (overlapASpan res) (overlapBSpan res) : Int) : ℚ) -
          (res.EditDistance : ℚ)) /
          ((max (overlapASpan res) (overlapBSpan res) : Int) : ℚ))
      else -200) := by
  unfold alignOverlapReverse at hres
  simp only [ne_eq] at hres
  repeat split at hres
  any_goals exact Except.noConfusion hres
  all_goals injection hres with h
  all_goals subst h
  all_goals refine ⟨by simp [overlapASpan, overlapBSpan], ?_⟩
  all_goals simp only [overlapASpan, overlapBSpan, ne_eq]
  all_goals split_ifs with h2
  all_goals first
  | rfl
  | ring
  | norm_num

/-- C6 counterexample: with a non-advancing SES stub on a zero-length
overlap, the finalized `span` is 0 and the code assigns
`Identity = 100 * (-2.0) = -200`, not `-2.0` as claimed (the `-2.0f` sits
inside the multiplication by `100.0f`; the guard also tests `span != 0`,
not `span > 0`). -/
theorem c6_identity_span_zero_refuted :
    (alignOverlap sesZero (fun b _ _ => b) [] qSeqEmpty [] ovlZero 1 1).map
      (fun r => (r.Identity, overlapASpan r, overlapBSpan r)) =
      .ok ((-200 : ℚ), 0, 0) ∧ ((-200 : ℚ) ≠ -2) := by
  constructor
  · have h1 : alignOverlap sesZero (fun b _ _ => b) [] qSeqEmpty [] ovlZero 1 1 =
        .ok (createOverlap 0 1 0 (-200) false 0 0 0 false 0 0 0 0 0) := by
      unfold alignOverlap alignOverlapReverse
      norm_num [sesZero, qSeqEmpty, ovlZero, createOverlap,
        fetchTargetSubsequence, ratTruncToInt, overlapASpan, overlapBSpan]
    rw [h1]
    rfl
  · norm_num

/-- C6 (amended): for every SES behaviour and every overlap the two-pass
alignment returns without error, the finalized values satisfy
`Score = -max(ASpan, BSpan)` and
`Identity = 100 × (span − EditDistance) / span` when `span ≠ 0`, and
`Identity = 100 × (−2.0) = −200` when `span = 0`.  (The claim said the
guard is `span > 0` and the fallback `−2.0`.) -/
theorem c6_align_finalize
    (ses : List Char → List Char → Int → Int → SesResults)
    (revCmpFn : List Char → Int → Int → List Char)
    (targetBases : List Char) (querySeq : QuerySeq)
    (reverseQuerySeq : List Char) (ovl : Overlap) (bw md : ℚ) (res : Overlap)
    (hres : alignOverlap ses revCmpFn targetBases querySeq reverseQuerySeq
      ovl bw md = .ok res) :
    res.Score = -((max (overlapASpan res) (overlapBSpan res) : Int) : ℚ) ∧
    res.Identity =
      (if ((max (overlapASpan res) (overlapBSpan res) : Int) : ℚ) ≠ 0 then
        100 * ((((max (overlapASpan res) (overlapBSpan res) : Int) : ℚ) -
          (res.EditDistance : ℚ)) /
          ((max (overlapASpan res) (overlapBSpan res) : Int) : ℚ))
      else -200) := by
  unfold alignOverlap at hres
  simp only [ne_eq] at hres
  repeat split at hres
  any_goals exact Except.noConfusion hres
  all_goals exact alignOverlapReverse_spec _ _ _ _ _ _ _ _ _ _ hres

/-- Concrete evaluation of scenario S5 through the embedded aligner. -/
theorem alignS5_eval :
    alignOverlap sesS5 (fun b _ _ => b) [] queryS5 [] ovlS5 1 1 = .ok resS5 := by
  unfold alignOverlap alignOverlapReverse
  norm_num [sesS5, queryS5, ovlS5, resS5, createOverlap,
    fetchTargetSubsequence, ratTruncToInt, overlapASpan, overlapBSpan]

/-- Witness for C6 at scenario S5: the concrete aligned overlap (spans
1000, edit distance 10) satisfies the finalization law, with
`Score = -1000` and `Identity = 99`. -/
theorem c6_align_finalize_witness :
    (resS5.Score = -((max (overlapASpan resS5) (overlapBSpan resS5) : Int) : ℚ) ∧
      resS5.Identity =
        (if ((max (overlapASpan resS5) (overlapBSpan resS5) : Int) : ℚ) ≠ 0 then
          100 * ((((max (overlapASpan resS5) (overlapBSpan resS5) : Int) : ℚ) -
            (resS5.EditDistance : ℚ)) /
            ((max (overlapASpan resS5) (overlapBSpan resS5) : Int) : ℚ))
        else -200)) ∧
    resS5.Score = -1000 ∧ resS5.Identity = 99 :=
  ⟨c6_align_finalize sesS5 (fun b _ _ => b) [] queryS5 [] ovlS5 1 1 resS5
    alignS5_eval, rfl, rfl⟩

/-! ### The hit-sort key order (claim C4) -/

/-- The unsigned 32-bit image of any value is below `2^32`. -/
theorem mask32_lt (x : Int) : mask32 x < 2 ^ 32 := by
  unfold mask32
  have h1 : 0 ≤ x % (2 ^ 32 : Int) := Int.emod_nonneg x (by norm_num)
  have h2 : x % (2 ^ 32 : Int) < 2 ^ 32 := Int.emod_lt_of_pos x (by norm_num)
  omega

/-- A 128-bit value lying (in signed order) between two values with equal
top 32 bits has those same top 32 bits. -/
theorem int128_sandwich (u v w : Nat) (hu : u < 2 ^ 128) (hv : v < 2 ^ 128)
    (hw : w < 2 ^ 128) (hq : u / 2 ^ 96 = w / 2 ^ 96)
    (h1 : int128OfBits u ≤ int128OfBits v)
    (h2 : int128OfBits v ≤ int128OfBits w) :
    v / 2 ^ 96 = u / 2 ^ 96 := by
  unfold int128OfBits at h1 h2
  split_ifs at h1 h2 <;> omega

/-- On values with equal top 32 bits, signed 128-bit order is unsigned
order. -/
theorem int128_le_mono (u v : Nat) (hu : u < 2 ^ 128) (hv : v < 2 ^ 128)
    (hq : u / 2 ^ 96 = v / 2 ^ 96) (h : int128OfBits u ≤ int128OfBits v) :
    u ≤ v := by
  unfold int128OfBits at h
  split_ifs at h <;> omega

/-- Unsigned order with equal top bits is inherited by the diagonal slot. -/
theorem lo_div_mono (u v : Nat) (h : u ≤ v) (hq : u / 2 ^ 96 = v / 2 ^ 96) :
    (u % 2 ^ 96) / 2 ^ 64 ≤ (v % 2 ^ 96) / 2 ^ 64 := by
  omega

/-- Decomposition of the packed key into its top 32 bits (`hitHi`) and low
96 bits (`hitLo`) for hits with `targetId` in `[0, 2^31)`. -/
theorem pack_decomp (h : SeedHit) (h1 : 0 ≤ h.targetId)
    (h2 : h.targetId < 2 ^ 31) :
    packSeedHitWithDiagonalTo128 h = hitHi h * 2 ^ 96 + hitLo h ∧
      hitLo h < 2 ^ 96 ∧ hitHi h < 2 ^ 32 := by
  have e1 := mask32_lt (h.targetPos - h.queryPos)
  have e2 := mask32_lt h.targetPos
  have e3 := mask32_lt h.queryPos
  have e5 : mask32 h.targetId = h.targetId.toNat := by
    unfold mask32
    rw [Int.emod_eq_of_lt h1 (by omega)]
  have e7 : mask32 (if h.targetRev then 1 else 0) = if h.targetRev then 1 else 0 := by
    cases h.targetRev <;> rfl
  have hr : (if h.targetRev then (1 : Nat) else 0) ≤ 1 := by
    cases h.targetRev <;> simp
  unfold packSeedHitWithDiagonalTo128 hitHi hitLo
  rw [e5, e7]
  omega

/-- For in-range target ids, the top 32 key bits determine exactly the
`(targetId, targetRev)` group. -/
theorem hitHi_group (a b : SeedHit)
    (ha1 : 0 ≤ a.targetId) (ha2 : a.targetId < 2 ^ 31)
    (hb1 : 0 ≤ b.targetId) (hb2 : b.targetId < 2 ^ 31) :
    hitHi a = hitHi b ↔ hitGroup a = hitGroup b := by
  unfold hitHi hitGroup
  constructor
  · intro he
    cases hra : a.targetRev <;> cases hrb : b.targetRev <;>
      rw [hra, hrb] at he <;> simp at he ⊢ <;> omega
  · intro he
    simp [Prod.ext_iff] at he
    rw [he.1, he.2]

/-- Projections of the packed key: its top 32 bits are `hitHi`, its
diagonal slot is `mask32 (diagonal)`, and it fits in 128 bits. -/
theorem pack_mod_div (h : SeedHit) (h1 : 0 ≤ h.targetId)
    (h2 : h.targetId < 2 ^ 31) :
    packSeedHitWithDiagonalTo128 h / 2 ^ 96 = hitHi h ∧
    (packSeedHitWithDiagonalTo128 h % 2 ^ 96) / 2 ^ 64 =
      mask32 (seedHitDiagonal h) ∧
    packSeedHitWithDiagonalTo128 h < 2 ^ 128 := by
  obtain ⟨hd, hlo, hhi⟩ := pack_decomp h h1 h2
  have e2 := mask32_lt h.targetPos
  have e3 := mask32_lt h.queryPos
  refine ⟨by omega, ?_, by omega⟩
  have hm : (packSeedHitWithDiagonalTo128 h % 2 ^ 96) = hitLo h := by omega
  rw [hm]
  unfold hitLo seedHitDiagonal
  omega

/-- C4 counterexample: the two hits of `hitDiagNeg`/`hitDiagPos` share the
group `(0, false)`, yet the masked signed diagonal makes the hit with
diagonal +1 sort before the hit with diagonal −1 (`mask32 (−1) = 2^32 − 1`),
so the sorted list has a strictly decreasing diagonal inside one group:
"non-decreasing diagonal within each group" is false as stated. -/
theorem c4_diag_nondecreasing_refuted :
    List.insertionSort packLE [hitDiagNeg, hitDiagPos] = [hitDiagPos, hitDiagNeg] ∧
    List.Pairwise packLE [hitDiagPos, hitDiagNeg] ∧
    hitGroup hitDiagPos = hitGroup hitDiagNeg ∧
    seedHitDiagonal hitDiagPos = 1 ∧ seedHitDiagonal hitDiagNeg = -1 ∧
    ¬ diagsNondecreasing [hitDiagPos, hitDiagNeg] := by
  refine ⟨by decide, by decide, by decide, by decide, by decide, by decide⟩

/-- C4 (amended): for every hit list sorted by the 128-bit packed hit-sort
key (as a signed `__int128`, the comparison `std::sort` uses), and whose
target ids lie in `[0, 2^31)` (any nonnegative `int32_t`), all hits of
equal `(targetId, targetRev)` are contiguous, and within each such group
the *unsigned 32-bit images* `diag mod 2^32` of the diagonals are
non-decreasing (hence the diagonals themselves are non-decreasing whenever
all diagonals of a group share one sign — not in general, see the
counterexample). -/
theorem c4_hitsort_grouping (l : List SeedHit)
    (hsorted : List.Pairwise packLE l)
    (hids : ∀ h ∈ l, 0 ≤ h.targetId ∧ h.targetId < 2 ^ 31) :
    groupsContiguous l ∧ diagsMod32Nondecreasing l := by
  have key := List.pairwise_iff_get.mp hsorted
  have bnd : ∀ i : Fin l.length, 0 ≤ (l.get i).targetId ∧ (l.get i).targetId < 2 ^ 31 :=
    fun i => hids (l.get i) (List.get_mem l i.1 i.2)
  constructor
  · intro i j k hij hjk hgroup
    by_cases hijeq : i = j
    · rw [← hijeq]
    by_cases hjkeq : j = k
    · rw [hjkeq]
      exact hgroup.symm
    have hij' : i < j := lt_of_le_of_ne hij hijeq
    have hjk' : j < k := lt_of_le_of_ne hjk hjkeq
    have h1 := key i j hij'
    have h2 := key j k hjk'
    obtain ⟨bi1, bi2⟩ := bnd i
    obtain ⟨bj1, bj2⟩ := bnd j
    obtain ⟨bk1, bk2⟩ := bnd k
    obtain ⟨di, _, ci⟩ := pack_mod_div (l.get i) bi1 bi2
    obtain ⟨dj, _, cj⟩ := pack_mod_div (l.get j) bj1 bj2
    obtain ⟨dk, _, ck⟩ := pack_mod_div (l.get k) bk1 bk2
    have hhik : hitHi (l.get i) = hitHi (l.get k) :=
      (hitHi_group _ _ bi1 bi2 bk1 bk2).mpr hgroup
    have hq : packSeedHitWithDiagonalTo128 (l.get i) / 2 ^ 96 =
        packSeedHitWithDiagonalTo128 (l.get k) / 2 ^ 96 := by
      rw [di, dk, hhik]
    have hv := int128_sandwich _ _ _ ci cj ck hq h1 h2
    have hj : hitHi (l.get j) = hitHi (l.get i) := by
      rw [← dj, ← di, hv]
    exact (hitHi_group _ _ bj1 bj2 bi1 bi2).mp hj
  · intro i j hij hgroup
    by_cases hijeq : i = j
    · rw [hijeq]
    have hij' : i < j := lt_of_le_of_ne hij hijeq
    have h1 := key i j hij'
    obtain ⟨bi1, bi2⟩ := bnd i
    obtain ⟨bj1, bj2⟩ := bnd j
    obtain ⟨di, mi, ci⟩ := pack_mod_div (l.get i) bi1 bi2
    obtain ⟨dj, mj, cj⟩ := pack_mod_div (l.get j) bj1 bj2
    have hhij : hitHi (l.get i) = hitHi (l.get j) :=
      (hitHi_group _ _ bi1 bi2 bj1 bj2).mpr hgroup
    have hq : packSeedHitWithDiagonalTo128 (l.get i) / 2 ^ 96 =
        packSeedHitWithDiagonalTo128 (l.get j) / 2 ^ 96 := by
      rw [di, dj, hhij]
    have hle := int128_le_mono _ _ ci cj hq h1
    have hmono := lo_div_mono _ _ hle hq
    rw [mi, mj] at hmono
    exact hmono

/-- Witness for C4 at the concrete sorted list `[hitDiagPos, hitDiagNeg]`. -/
theorem c4_hitsort_grouping_witness :
    groupsContiguous [hitDiagPos, hitDiagNeg] ∧
      diagsMod32Nondecreasing [hitDiagPos, hitDiagNeg] :=
  c4_hitsort_grouping [hitDiagPos, hitDiagNeg] (by decide) (by decide)

/-! ### Theorems for claim C3 -/

theorem getD_mem_hits (hits : List SeedHit) (j : Nat) (hj : j < hits.length) :
    hits.getD j dummySeedHit ∈ hits := by
  rw [List.getD_eq_getElem _ _ hj]
  exact List.getElem_mem hj

theorem makeOverlap_ok (hits : List SeedHit) (qs : QuerySeq)
    (cache : SeedDBIndexCache) (b e mp xp : Nat)
    (heq : (hits.getD xp dummySeedHit).targetId =
      (hits.getD mp dummySeedHit).targetId)
    (hv1 : 0 ≤ (hits.getD mp dummySeedHit).targetId)
    (hv2 : (hits.getD mp dummySeedHit).targetId < (cache.seedLines.length : Int)) :
    makeOverlap hits qs cache b e mp xp = .ok (createOverlap qs.id
      (hits.getD mp dummySeedHit).targetId
      (Int.cast ((e : Int) - (b : Int)) : ℚ) 0 false
      (hits.getD mp dummySeedHit).queryPos (hits.getD xp dummySeedHit).queryPos
      (qs.bases.length : Int) (hits.getD mp dummySeedHit).targetRev
      (hits.getD mp dummySeedHit).targetPos (hits.getD xp dummySeedHit).targetPos
      (cache.seedLines.getD (hits.getD mp dummySeedHit).targetId.toNat
        dummySeedsLine).numBases
      (-1) ((e : Int) - (b : Int))) := by
  unfold makeOverlap getSeedsLine
  rw [if_neg (fun hc => hc heq)]
  rw [if_neg (by omega)]



theorem overlap_group_inv (hits : List SeedHit) (qs : QuerySeq)
    (cache : SeedDBIndexCache) (mns mcs : Int) (ssh sso : Bool)
    (hwf : hitsWellFormed hits qs cache) (hmcs : 0 ≤ mcs)
    (b e mp xp : Nat) (hb : b < e) (he : e ≤ hits.length)
    (hmp1 : b ≤ mp) (hmp2 : mp < e) (hxp1 : b ≤ xp) (hxp2 : xp < e)
    (hgroup : ∀ j, b ≤ j → j < e →
      (hits.getD j dummySeedHit).targetId =
        (hits.getD b dummySeedHit).targetId ∧
      (hits.getD j dummySeedHit).targetRev =
        (hits.getD b dummySeedHit).targetRev) :
    ∃ o, makeOverlap hits qs cache b e mp xp = .ok o ∧
      (overlapAccepted o mns mcs ssh sso → overlapChainInvariant hits o) := by
  have hmpwf := hwf (hits.getD mp dummySeedHit) (getD_mem_hits hits mp (by omega))
  have hxpwf := hwf (hits.getD xp dummySeedHit) (getD_mem_hits hits xp (by omega))
  have hgmp := hgroup mp hmp1 hmp2
  have hgxp := hgroup xp hxp1 hxp2
  have heq : (hits.getD xp dummySeedHit).targetId =
      (hits.getD mp dummySeedHit).targetId := by rw [hgmp.1, hgxp.1]
  refine ⟨_, makeOverlap_ok hits qs cache b e mp xp heq hmpwf.2.2.1 hmpwf.2.2.2.1, ?_⟩
  intro hacc
  obtain ⟨hns, hAs, hBs, hself, hsym⟩ := hacc
  unfold overlapChainInvariant
  simp only [overlapASpan, overlapBSpan, createOverlap] at hAs hBs
  simp only [createOverlap]
  refine ⟨hmpwf.1, by omega, hxpwf.2.1, hmpwf.2.2.2.2.1, by omega, ?_, b, e, hb, he, ?_⟩
  · have := hxpwf.2.2.2.2.2
    rw [heq] at this
    exact this
  · intro j hj1 hj2
    have hgj := hgroup j hj1 hj2
    constructor
    · rw [hgj.1, hgmp.1]
    · rw [hgj.2, hgmp.2]



theorem chainUpdate_fields (st : ChainState) (i combo : Nat) :
    (chainUpdateMinMax st i combo).beginId = st.beginId ∧
    (chainUpdateMinMax st i combo).overlaps = st.overlaps ∧
    ((chainUpdateMinMax st i combo).minPosId = st.minPosId ∨
      (chainUpdateMinMax st i combo).minPosId = i) ∧
    ((chainUpdateMinMax st i combo).maxPosId = st.maxPosId ∨
      (chainUpdateMinMax st i combo).maxPosId = i) := by
  unfold chainUpdateMinMax
  simp only [gt_iff_lt]
  split_ifs <;> simp


theorem chainUpdate_beginId (st : ChainState) (i combo : Nat) :
    (chainUpdateMinMax st i combo).beginId = st.beginId := by
  unfold chainUpdateMinMax
  simp only [gt_iff_lt]
  split_ifs <;> rfl

theorem chainUpdate_overlaps (st : ChainState) (i combo : Nat) :
    (chainUpdateMinMax st i combo).overlaps = st.overlaps := by
  unfold chainUpdateMinMax
  simp only [gt_iff_lt]
  split_ifs <;> rfl

theorem chainUpdate_minPosId_eq (st : ChainState) (i combo : Nat)
    (h : st.minPosId = i) :
    (chainUpdateMinMax st i combo).minPosId = i := by
  unfold chainUpdateMinMax
  simp only [gt_iff_lt]
  split_ifs <;> simp [h]

theorem chainUpdate_maxPosId_eq (st : ChainState) (i combo : Nat)
    (h : st.maxPosId = i) :
    (chainUpdateMinMax st i combo).maxPosId = i := by
  unfold chainUpdateMinMax
  simp only [gt_iff_lt]
  split_ifs <;> simp [h]

theorem chainFlush_sound (hits : List SeedHit) (qs : QuerySeq)
    (cache : SeedDBIndexCache) (mns mcs : Int) (ssh sso : Bool)
    (hwf : hitsWellFormed hits qs cache) (hmcs : 0 ≤ mcs) (st : ChainState)
    (hb : st.beginId < hits.length)
    (hm1 : st.beginId ≤ st.minPosId) (hm2 : st.minPosId < hits.length)
    (hx1 : st.beginId ≤ st.maxPosId) (hx2 : st.maxPosId < hits.length)
    (hgroup : ∀ j, st.beginId ≤ j → j < hits.length →
      (hits.getD j dummySeedHit).targetId =
        (hits.getD st.beginId dummySeedHit).targetId ∧
      (hits.getD j dummySeedHit).targetRev =
        (hits.getD st.beginId dummySeedHit).targetRev)
    (hover : ∀ o ∈ st.overlaps, overlapChainInvariant hits o) :
    ∀ out, chainFlush hits qs cache mns mcs ssh sso hits.length st = .ok out →
    ∀ o ∈ out, overlapChainInvariant hits o := by
  intro out hout o ho
  unfold chainFlush at hout
  rw [if_pos (by omega)] at hout
  obtain ⟨o1, ho1, hinv1⟩ := overlap_group_inv hits qs cache mns mcs ssh sso
    hwf hmcs st.beginId hits.length st.minPosId st.maxPosId hb
    (le_refl _) hm1 hm2 hx1 hx2 hgroup
  rw [ho1] at hout
  simp only [Except.ok.injEq] at hout
  subst hout
  split_ifs at ho with hacc
  · rcases List.mem_append.mp ho with hmem | hmem
    · exact hover o hmem
    · rw [List.mem_singleton.mp hmem]
      exact hinv1 hacc
  · exact hover o ho

theorem chainSweep_sound
    (hits : List SeedHit) (qs : QuerySeq) (cache : SeedDBIndexCache)
    (cb mns mcs : Int) (ssh sso : Bool)
    (hwf : hitsWellFormed hits qs cache) (hmcs : 0 ≤ mcs) :
    ∀ (rem i : Nat) (st : ChainState),
      hits.length ≤ i + rem →
      1 ≤ i → i ≤ hits.length →
      st.beginId < i →
      st.beginId ≤ st.minPosId → st.minPosId < i →
      st.beginId ≤ st.maxPosId → st.maxPosId < i →
      (∀ j, st.beginId ≤ j → j < i →
        (hits.getD j dummySeedHit).targetId =
          (hits.getD st.beginId dummySeedHit).targetId ∧
        (hits.getD j dummySeedHit).targetRev =
          (hits.getD st.beginId dummySeedHit).targetRev) →
      (∀ o ∈ st.overlaps, overlapChainInvariant hits o) →
      ∀ out, chainSweep hits qs cache cb mns mcs ssh sso hits.length rem i st = .ok out →
      ∀ o ∈ out, overlapChainInvariant hits o := by
  intro rem
  induction rem with
  | zero =>
    intro i st hrem hi1 hile hb hm1 hm2 hx1 hx2 hgroup hover out hout o ho
    have hieq : i = hits.length := by omega
    subst hieq
    simp only [chainSweep] at hout
    exact chainFlush_sound hits qs cache mns mcs ssh sso hwf hmcs st
      (by omega) hm1 (by omega) hx1 (by omega) hgroup hover out hout o ho
  | succ rem' ih =>
    intro i st hrem hi1 hile hb hm1 hm2 hx1 hx2 hgroup hover out hout o ho
    simp only [chainSweep] at hout
    by_cases hlt : i < hits.length
    · rw [if_pos hlt] at hout
      simp only [ne_eq] at hout
      by_cases hcond : ¬((hits.getD i dummySeedHit).targetId =
            (hits.getD st.beginId dummySeedHit).targetId) ∨
          ¬((hits.getD i dummySeedHit).targetRev =
            (hits.getD st.beginId dummySeedHit).targetRev) ∨
          |seedHitDiagonal (hits.getD i dummySeedHit) - st.beginDiag| > cb
      · rw [if_pos hcond] at hout
        obtain ⟨o1, ho1, hinv1⟩ := overlap_group_inv hits qs cache mns mcs ssh sso
          hwf hmcs st.beginId i st.minPosId st.maxPosId hb (le_of_lt hlt)
          hm1 hm2 hx1 hx2 hgroup
        rw [ho1] at hout
        simp only [] at hout
        generalize hst2 : chainUpdateMinMax
          { beginId := i, beginDiag := seedHitDiagonal (hits.getD i dummySeedHit),
            minTargetQueryPosCombo := posCombo (hits.getD i dummySeedHit),
            maxTargetQueryPosCombo := posCombo (hits.getD i dummySeedHit),
            minPosId := i, maxPosId := i,
            overlaps := if overlapAccepted o1 mns mcs ssh sso
              then st.overlaps ++ [o1] else st.overlaps }
          i (posCombo (hits.getD i dummySeedHit)) = st2 at hout
        have hf := chainUpdate_fields
          { beginId := i, beginDiag := seedHitDiagonal (hits.getD i dummySeedHit),
            minTargetQueryPosCombo := posCombo (hits.getD i dummySeedHit),
            maxTargetQueryPosCombo := posCombo (hits.getD i dummySeedHit),
            minPosId := i, maxPosId := i,
            overlaps := if overlapAccepted o1 mns mcs ssh sso
              then st.overlaps ++ [o1] else st.overlaps }
          i (posCombo (hits.getD i dummySeedHit))
        rw [hst2] at hf
        have hbeg : st2.beginId = i := hf.1
        have hov : st2.overlaps = (if overlapAccepted o1 mns mcs ssh sso
            then st.overlaps ++ [o1] else st.overlaps) := hf.2.1
        have hmin : st2.minPosId = i := by
          rcases hf.2.2.1 with h | h <;> exact h
        have hmax : st2.maxPosId = i := by
          rcases hf.2.2.2 with h | h <;> exact h
        refine ih (i + 1) st2 (by omega) (by omega) (by omega) (by omega)
          (by omega) (by omega) (by omega) (by omega) ?_ ?_ out hout o ho
        · intro j hj1 hj2
          rw [hbeg] at hj1 ⊢
          have hji : j = i := by omega
          subst hji
          exact ⟨rfl, rfl⟩
        · intro o2 ho2
          rw [hov] at ho2
          by_cases hacc : overlapAccepted o1 mns mcs ssh sso
          · rw [if_pos hacc] at ho2
            rcases List.mem_append.mp ho2 with hmem | hmem
            · exact hover o2 hmem
            · rw [List.mem_singleton.mp hmem]
              exact hinv1 hacc
          · rw [if_neg hacc] at ho2
            exact hover o2 ho2
      · rw [if_neg hcond] at hout
        push_neg at hcond
        generalize hst2 : chainUpdateMinMax st i
          (posCombo (hits.getD i dummySeedHit)) = st2 at hout
        have hf := chainUpdate_fields st i (posCombo (hits.getD i dummySeedHit))
        rw [hst2] at hf
        have hbeg : st2.beginId = st.beginId := hf.1
        have hov : st2.overlaps = st.overlaps := hf.2.1
        have hmin : st2.minPosId = st.minPosId ∨ st2.minPosId = i := hf.2.2.1
        have hmax : st2.maxPosId = st.maxPosId ∨ st2.maxPosId = i := hf.2.2.2
        refine ih (i + 1) st2 (by omega) (by omega) (by omega) (by omega)
          (by omega) (by omega) (by omega) (by omega) ?_ ?_ out hout o ho
        · intro j hj1 hj2
          rw [hbeg] at hj1 ⊢
          by_cases hji : j < i
          · exact hgroup j hj1 hji
          · have : j = i := by omega
            subst this
            exact ⟨hcond.1, hcond.2.1⟩
        · intro o2 ho2
          rw [hov] at ho2
          exact hover o2 ho2
    · rw [if_neg hlt] at hout
      exact chainFlush_sound hits qs cache mns mcs ssh sso hwf hmcs st
        (by omega) hm1 (by omega) hx1 (by omega)
        (fun j hj1 hj2 => hgroup j hj1 (by omega)) hover out hout o ho

theorem formDiagonalAnchors_sound (hits : List SeedHit) (qs : QuerySeq)
    (cache : SeedDBIndexCache) (cb mns mcs : Int) (ssh sso : Bool)
    (hwf : hitsWellFormed hits qs cache) (hmcs : 0 ≤ mcs) (out : List Overlap)
    (hout : formDiagonalAnchors hits qs cache cb mns mcs ssh sso = .ok out) :
    ∀ o ∈ out, overlapChainInvariant hits o := by
  unfold formDiagonalAnchors at hout
  split at hout
  · injection hout with h
    subst h
    intro o ho
    exact absurd ho (List.not_mem_nil o)
  · rename_i hne
    have hlen : 0 < hits.length := by
      cases hits
      · simp at hne
      · simp
    obtain ⟨n, hn⟩ : ∃ n, hits.length = n + 1 := ⟨hits.length - 1, by omega⟩
    rw [hn] at hout
    simp only [chainSweep] at hout
    rw [if_pos (by omega)] at hout
    simp only [ne_eq, not_true, false_or] at hout
    by_cases hcond : |seedHitDiagonal (hits.getD 0 dummySeedHit) -
          seedHitDiagonal (hits.getD 0 dummySeedHit)| > cb
    · rw [if_pos hcond] at hout
      have hval := hwf (hits.getD 0 dummySeedHit) (getD_mem_hits hits 0 hlen)
      rw [makeOverlap_ok hits qs cache 0 0 0 0 rfl hval.2.2.1 hval.2.2.2.1] at hout
      simp only [] at hout
      have hpre := chainSweep_sound hits qs cache cb mns mcs ssh sso hwf hmcs
      rw [hn] at hpre
      refine hpre n 1 _ (by omega) (le_refl 1) (by omega) ?_ ?_ ?_ ?_ ?_
        ?_ ?_ out hout
      · rw [chainUpdate_beginId]
        exact Nat.zero_lt_one
      · rw [chainUpdate_beginId]
        exact Nat.zero_le _
      · rw [chainUpdate_minPosId_eq]
        · exact Nat.zero_lt_one
        · rfl
      · rw [chainUpdate_beginId]
        exact Nat.zero_le _
      · rw [chainUpdate_maxPosId_eq]
        · exact Nat.zero_lt_one
        · rfl
      · intro j hj1 hj2
        rw [chainUpdate_beginId] at hj1 ⊢
        have hj0 : j = 0 := by omega
        subst hj0
        exact ⟨rfl, rfl⟩
      · intro o2 ho2
        rw [chainUpdate_overlaps] at ho2
        dsimp only at ho2
        split_ifs at ho2 with hacc
        · have h21 := hacc.2.1
          simp [overlapASpan, createOverlap] at h21
          omega
        · exact absurd ho2 (List.not_mem_nil o2)
    · rw [if_neg hcond] at hout
      have hpre := chainSweep_sound hits qs cache cb mns mcs ssh sso hwf hmcs
      rw [hn] at hpre
      refine hpre n 1 _ (by omega) (le_refl 1) (by omega) ?_ ?_ ?_ ?_ ?_
        ?_ ?_ out hout
      · rw [chainUpdate_beginId]
        exact Nat.zero_lt_one
      · rw [chainUpdate_beginId]
        exact Nat.zero_le _
      · rw [chainUpdate_minPosId_eq]
        · exact Nat.zero_lt_one
        · rfl
      · rw [chainUpdate_beginId]
        exact Nat.zero_le _
      · rw [chainUpdate_maxPosId_eq]
        · exact Nat.zero_lt_one
        · rfl
      · intro j hj1 hj2
        rw [chainUpdate_beginId] at hj1 ⊢
        have hj0 : j = 0 := by omega
        subst hj0
        exact ⟨rfl, rfl⟩
      · intro o2 ho2
        rw [chainUpdate_overlaps] at ho2
        dsimp only at ho2
        exact absurd ho2 (List.not_mem_nil o2)

set_option maxRecDepth 100000 in
/-- C3 counterexample: a sorted hit list (`Pairwise packLE`) on which the
chainer emits an overlap with `Astart = 250`, `Aend = 300` but `Alen = 200`,
violating the claimed `Aend ≤ Alen`: nothing bounds the hit coordinates by
the sequence lengths, so the invariant does not hold for *every* sorted hit
list. -/
theorem c3_chain_invariant_refuted :
    List.Pairwise packLE hitsC3 ∧
    (formDiagonalAnchors hitsC3 queryC3 cacheC3 0 1 40 true false).map
        (fun os => os.map (fun o => (o.Astart, o.Aend, o.Alen))) =
      .ok [((250 : Int), (300 : Int), (200 : Int))] ∧
    ¬((300 : Int) ≤ (200 : Int)) := by decide

/-- **C3** (amended).  For every hit list whose hits are in range for the
query and the index cache (`hitsWellFormed`) and every nonnegative
`minChainSpan`, each overlap emitted by `FormDiagonalAnchors_` satisfies
`0 ≤ Astart ≤ Aend ≤ Alen` and `0 ≤ Bstart ≤ Bend ≤ Blen`, and has a
nonempty contiguous group of contributing hits that all share its
`(Bid, Brev)`.  Without the range hypothesis the property fails. -/
theorem c3_chain_overlap_invariants
    (hits : List SeedHit) (qs : QuerySeq) (cache : SeedDBIndexCache)
    (cb mns mcs : Int) (ssh sso : Bool)
    (hwf : hitsWellFormed hits qs cache) (hmcs : 0 ≤ mcs)
    (out : List Overlap)
    (hout : formDiagonalAnchors hits qs cache cb mns mcs ssh sso = .ok out) :
    ∀ o ∈ out, overlapChainInvariant hits o :=
  formDiagonalAnchors_sound hits qs cache cb mns mcs ssh sso hwf hmcs out hout

set_option maxRecDepth 100000 in
/-- Witness for C3 at a concrete in-range hit list. -/
theorem c3_chain_overlap_invariants_witness :
    hitsWellFormed hitsC3ok queryC3 cacheC3 ∧ (0 : Int) ≤ 40 ∧
    (∀ o ∈ ([] : List Overlap), overlapChainInvariant hitsC3ok o) :=
  ⟨by unfold hitsWellFormed; decide, by decide,
   c3_chain_overlap_invariants hitsC3ok queryC3 cacheC3 0 1 40 true false
     (by unfold hitsWellFormed; decide) (by decide) [] (by decide)⟩

/-! ### Theorems for claims C2, C8 and C10 (SeedDB index serializer and loaders) -/


theorem natToCharsGo_congr :
    ∀ f1 f2 n, n < f1 → n < f2 → natToCharsGo f1 n = natToCharsGo f2 n := by
  intro f1
  induction f1 with
  | zero => intro f2 n h1 _; omega
  | succ f1 ih =>
    intro f2 n h1 h2
    cases f2 with
    | zero => omega
    | succ f2 =>
      simp only [natToCharsGo]
      split
      · rfl
      · rename_i hn
        rw [ih f2 (n / 10) (by omega) (by omega)]

theorem natToChars_eq (n : Nat) : natToChars n =
    if n < 10 then [Char.ofNat (48 + n)]
    else natToChars (n / 10) ++ [Char.ofNat (48 + n % 10)] := by
  unfold natToChars
  conv_lhs => rw [natToCharsGo]
  split
  · rfl
  · rename_i h
    rw [natToCharsGo_congr n (n / 10 + 1) (n / 10) (by omega) (by omega)]

theorem digit_char_facts : ∀ d < 10, ((Char.ofNat (48 + d)).isDigit = true ∧
    (Char.ofNat (48 + d)).toNat = 48 + d ∧ isWS (Char.ofNat (48 + d)) = false ∧
    Char.ofNat (48 + d) ≠ ',' ∧ Char.ofNat (48 + d) ≠ '=' ∧
    Char.ofNat (48 + d) ≠ '\n' ∧ Char.ofNat (48 + d) ≠ '-' ∧
    Char.ofNat (48 + d) ≠ '+' ∧ Char.ofNat (48 + d) ≠ '\t') := by decide

theorem natToChars_ne_nil (n : Nat) : natToChars n ≠ [] := by
  rw [natToChars_eq]
  split
  · simp
  · simp

theorem natToChars_mem (n : Nat) :
    ∀ c ∈ natToChars n, ∃ d, d < 10 ∧ c = Char.ofNat (48 + d) := by
  induction n using Nat.strong_induction_on with
  | _ n ih =>
    intro c hc
    rw [natToChars_eq] at hc
    split at hc
    · rename_i h
      simp at hc
      exact ⟨n, h, hc⟩
    · rename_i h
      rcases List.mem_append.mp hc with hm | hm
      · exact ih (n / 10) (Nat.div_lt_self (by omega) (by omega)) c hm
      · simp at hm
        exact ⟨n % 10, by omega, hm⟩

theorem digitsToNat_append (xs : List Char) (c : Char) :
    digitsToNat (xs ++ [c]) = 10 * digitsToNat xs + (c.toNat - 48) := by
  simp [digitsToNat, List.foldl_append]
  ring

theorem digitsToNat_natToChars (n : Nat) : digitsToNat (natToChars n) = n := by
  induction n using Nat.strong_induction_on with
  | _ n ih =>
    rw [natToChars_eq]
    split
    · rename_i h
      simp [digitsToNat]
      rw [(digit_char_facts n h).2.1]
      omega
    · rename_i h
      rw [digitsToNat_append, ih (n / 10) (Nat.div_lt_self (by omega) (by omega)),
        (digit_char_facts (n % 10) (by omega)).2.1]
      omega

theorem takeWhile_append_all {p : Char → Bool} (xs rest : List Char)
    (h1 : ∀ c ∈ xs, p c = true)
    (h2 : ∀ c, rest.head? = some c → p c = false) :
    (xs ++ rest).takeWhile p = xs ∧ (xs ++ rest).dropWhile p = rest := by
  induction xs with
  | nil =>
    simp only [List.nil_append]
    cases rest with
    | nil => simp
    | cons c r =>
      have hc := h2 c rfl
      simp [List.takeWhile_cons, List.dropWhile_cons, hc]
  | cons x xs ih =>
    have hx := h1 x (by simp)
    have hih := ih (fun c hc => h1 c (by simp [hc]))
    simp only [List.cons_append, List.takeWhile_cons, List.dropWhile_cons, hx,
      if_true, hih.1, hih.2]
    simp

theorem scanDigits_concat (xs rest : List Char) (hne : xs ≠ [])
    (hall : ∀ c ∈ xs, c.isDigit = true)
    (hrest : ∀ c, rest.head? = some c → c.isDigit = false) :
    scanDigits (xs ++ rest) = some (digitsToNat xs, rest) := by
  obtain ⟨ht, hd⟩ := takeWhile_append_all xs rest hall hrest
  unfold scanDigits
  simp only [ht, hd]
  rw [if_neg (by simpa using hne)]

theorem scanInt_ws_cons (c : Char) (s : List Char) (h : isWS c = true) :
    scanInt (c :: s) = scanInt s := by
  simp only [scanInt, List.dropWhile_cons, h, if_true]

theorem scanTok_ws_cons (c : Char) (s : List Char) (h : isWS c = true) :
    scanTok (c :: s) = scanTok s := by
  simp only [scanTok, List.dropWhile_cons, h, if_true]

theorem natToChars_digits (n : Nat) : ∀ c ∈ natToChars n, c.isDigit = true :=
  fun c hc => by
    obtain ⟨d, hd, hcd⟩ := natToChars_mem n c hc
    rw [hcd]
    exact (digit_char_facts d hd).1

theorem natToChars_not_ws (n : Nat) : ∀ c ∈ natToChars n, isWS c = false :=
  fun c hc => by
    obtain ⟨d, hd, hcd⟩ := natToChars_mem n c hc
    rw [hcd]
    exact (digit_char_facts d hd).2.2.1

theorem scanInt_intToChars (i : Int) (rest : List Char)
    (hrest : ∀ c, rest.head? = some c → c.isDigit = false) :
    scanInt (intToChars i ++ rest) = some (i, rest) := by
  unfold intToChars
  split
  · rename_i hi
    have hsd := scanDigits_concat (natToChars (-i).toNat) rest
      (natToChars_ne_nil _) (natToChars_digits _) hrest
    simp only [List.cons_append, scanInt]
    rw [List.dropWhile_cons, if_neg (by decide : ¬(isWS '-' = true))]
    rw [if_pos (List.head?_cons :
      ('-' :: (natToChars (-i).toNat ++ rest)).head? = some '-')]
    rw [List.tail_cons, hsd]
    simp only [Option.map_some', digitsToNat_natToChars, Option.some.injEq,
      Prod.mk.injEq]
    refine ⟨by omega, ?_⟩
    trivial
  · rename_i hi
    obtain ⟨c, cs, hcs⟩ : ∃ c cs, natToChars i.toNat = c :: cs := by
      cases h : natToChars i.toNat with
      | nil => exact absurd h (natToChars_ne_nil _)
      | cons c cs => exact ⟨c, cs, rfl⟩
    obtain ⟨d, hd, hcd⟩ : ∃ d, d < 10 ∧ c = Char.ofNat (48 + d) :=
      natToChars_mem i.toNat c (by rw [hcs]; simp)
    have hsd := scanDigits_concat (natToChars i.toNat) rest
      (natToChars_ne_nil _) (natToChars_digits _) hrest
    rw [hcs] at hsd
    simp only [List.cons_append] at hsd
    have hcws : ¬(isWS c = true) := by
      rw [hcd]
      rw [(digit_char_facts d hd).2.2.1]
      simp
    have hcminus : ¬((c :: (cs ++ rest)).head? = some '-') := by
      simp only [List.head?_cons, Option.some.injEq]
      rw [hcd]
      exact (digit_char_facts d hd).2.2.2.2.2.2.1
    have hcplus : ¬((c :: (cs ++ rest)).head? = some '+') := by
      simp only [List.head?_cons, Option.some.injEq]
      rw [hcd]
      exact (digit_char_facts d hd).2.2.2.2.2.2.2.1
    rw [hcs]
    simp only [List.cons_append, scanInt]
    rw [List.dropWhile_cons, if_neg hcws]
    rw [if_neg hcminus, if_neg hcplus, hsd]
    simp only [Option.map_some', Option.some.injEq, Prod.mk.injEq]
    have hdv : digitsToNat (c :: cs) = i.toNat := by
      have h2 := digitsToNat_natToChars i.toNat
      rw [hcs] at h2
      exact h2
    rw [hdv]
    refine ⟨by omega, ?_⟩
    trivial

theorem scanTok_concat (t rest : List Char) (hne : t ≠ [])
    (hws : ∀ c ∈ t, isWS c = false)
    (hrest : ∀ c, rest.head? = some c → isWS c = true) :
    scanTok (t ++ rest) = some (t, rest) := by
  obtain ⟨c, cs, hcs⟩ : ∃ c cs, t = c :: cs := by
    cases t with
    | nil => exact absurd rfl hne
    | cons c cs => exact ⟨c, cs, rfl⟩
  have hall : ∀ ch ∈ t, (fun x => !isWS x) ch = true := by
    intro ch hch
    simp [hws ch hch]
  have hr2 : ∀ ch, rest.head? = some ch → (fun x => !isWS x) ch = false := by
    intro ch hch
    simp [hrest ch hch]
  obtain ⟨ht, hd⟩ := takeWhile_append_all t rest hall hr2
  subst hcs
  have hcws : ¬(isWS c = true) := by
    simp [hws c (List.mem_cons_self c cs)]
  simp only [List.cons_append] at ht hd
  simp only [List.cons_append, scanTok]
  rw [List.dropWhile_cons, if_neg hcws]
  simp only [ht, hd]
  rw [if_neg (show ¬((c :: cs).isEmpty = true) by simp)]

theorem scanChar_cons (c : Char) (s : List Char) (h : isWS c = false) :
    scanChar (c :: s) = some (c, s) := by
  unfold scanChar
  rw [List.dropWhile_cons, if_neg (by simp [h])]

theorem join_map_newline (bs : List (List Char)) :
    ((bs.map (fun b => b ++ ['\n'])).flatten) =
      List.intercalate ['\n'] (bs ++ [[]]) := by
  induction bs with
  | nil => simp [List.intercalate]
  | cons b bs ih =>
    cases bs with
    | nil => simp [List.intercalate, List.intersperse]
    | cons b2 bs2 =>
      simp only [List.map_cons, List.flatten_cons] at ih ⊢
      rw [ih]
      simp only [List.cons_append, List.intercalate, List.intersperse_cons_cons,
        List.flatten_cons]
      simp [List.append_assoc]

theorem splitOn_lines (bs : List (List Char)) (h : ∀ b ∈ bs, '\n' ∉ b) :
    ((bs.map (fun b => b ++ ['\n'])).flatten).splitOn '\n' = bs ++ [[]] := by
  rw [join_map_newline]
  exact List.splitOn_intercalate (bs ++ [[]]) '\n'
    (by
      intro l hl
      rcases List.mem_append.mp hl with hm | hm
      · exact h l hm
      · simp at hm
        simp [hm])
    (by simp)

theorem emitPBody_intercalate (ps : SeedDBParameters) :
    emitPBody ps = List.intercalate [',']
      [['k', '='] ++ intToChars ps.KmerSize,
       ['w', '='] ++ intToChars ps.MinimizerWindow,
       ['h', 'p', 'c', '='] ++ emitBool ps.UseHPC,
       ['h', 'p', 'c', '_', 'l', 'e', 'n', '='] ++ intToChars ps.MaxHPCLen,
       ['r', 'c', '='] ++ emitBool ps.UseRC] := by
  simp [emitPBody, List.intercalate, List.intersperse]

theorem intToChars_chars (i : Int) :
    ∀ c ∈ intToChars i, (∃ d, d < 10 ∧ c = Char.ofNat (48 + d)) ∨ c = '-' := by
  intro c hc
  unfold intToChars at hc
  split at hc
  · rcases List.mem_cons.mp hc with hm | hm
    · right; exact hm
    · left; exact natToChars_mem _ c hm
  · left; exact natToChars_mem _ c hc

theorem intToChars_no_comma (i : Int) : ',' ∉ intToChars i := by
  intro hc
  rcases intToChars_chars i ',' hc with ⟨d, hd, hcd⟩ | hm
  · exact (digit_char_facts d hd).2.2.2.1 hcd.symm
  · exact absurd hm.symm (by decide)

theorem intToChars_no_eq (i : Int) : '=' ∉ intToChars i := by
  intro hc
  rcases intToChars_chars i '=' hc with ⟨d, hd, hcd⟩ | hm
  · exact (digit_char_facts d hd).2.2.2.2.1 hcd.symm
  · exact absurd hm.symm (by decide)

theorem intToChars_no_newline (i : Int) : '\n' ∉ intToChars i := by
  intro hc
  rcases intToChars_chars i '\n' hc with ⟨d, hd, hcd⟩ | hm
  · exact (digit_char_facts d hd).2.2.2.2.2.1 hcd.symm
  · exact absurd hm.symm (by decide)

theorem intToChars_not_ws (i : Int) : ∀ c ∈ intToChars i, isWS c = false := by
  intro c hc
  rcases intToChars_chars i c hc with ⟨d, hd, hcd⟩ | hm
  · rw [hcd]; exact (digit_char_facts d hd).2.2.1
  · rw [hm]; decide

theorem emitBool_chars (b : Bool) :
    (',' ∉ emitBool b) ∧ ('=' ∉ emitBool b) ∧ ('\n' ∉ emitBool b) ∧
      (∀ c ∈ emitBool b, isWS c = false) := by
  cases b <;> decide

theorem splitOn_eq_pair (k v : List Char) (hk : '=' ∉ k) (hv : '=' ∉ v) :
    (k ++ '=' :: v).splitOn '=' = [k, v] := by
  have h := List.splitOn_intercalate [k, v] '='
    (by
      intro l hl
      rcases List.mem_cons.mp hl with hm | hm
      · rw [hm]; exact hk
      · simp at hm
        rw [hm]; exact hv)
    (by simp)
  simpa [List.intercalate, List.intersperse] using h

theorem stoiM_intToChars (i : Int) : stoiM (intToChars i) = some i := by
  unfold stoiM
  rw [show intToChars i = intToChars i ++ [] by simp]
  rw [scanInt_intToChars i [] (by intro c hc; simp at hc)]
  simp

theorem parseParamsGo_k (ret : SeedDBParameters) (v : List Char)
    (rest : List (List Char)) (i : Int) (hv : '=' ∉ v)
    (hst : stoiM v = some i) :
    parseParamsGo ret (('k' :: '=' :: v) :: rest) =
      parseParamsGo { ret with KmerSize := i } rest := by
  have hsplit := splitOn_eq_pair ['k'] v (by decide) hv
  simp only [List.cons_append, List.nil_append] at hsplit
  simp +decide [parseParamsGo, hsplit, hst]

theorem parseParamsGo_w (ret : SeedDBParameters) (v : List Char)
    (rest : List (List Char)) (i : Int) (hv : '=' ∉ v)
    (hst : stoiM v = some i) :
    parseParamsGo ret (('w' :: '=' :: v) :: rest) =
      parseParamsGo { ret with MinimizerWindow := i } rest := by
  have hsplit := splitOn_eq_pair ['w'] v (by decide) hv
  simp only [List.cons_append, List.nil_append] at hsplit
  simp +decide [parseParamsGo, hsplit, hst]

theorem parseParamsGo_hpc (ret : SeedDBParameters) (v : List Char)
    (rest : List (List Char)) (i : Int) (hv : '=' ∉ v)
    (hst : stoiM v = some i) :
    parseParamsGo ret (('h' :: 'p' :: 'c' :: '=' :: v) :: rest) =
      parseParamsGo { ret with UseHPC := i ≠ 0 } rest := by
  have hsplit := splitOn_eq_pair ['h', 'p', 'c'] v (by decide) hv
  simp only [List.cons_append, List.nil_append] at hsplit
  simp +decide [parseParamsGo, hsplit, hst]

theorem parseParamsGo_hpclen (ret : SeedDBParameters) (v : List Char)
    (rest : List (List Char)) (i : Int) (hv : '=' ∉ v)
    (hst : stoiM v = some i) :
    parseParamsGo ret
        (('h' :: 'p' :: 'c' :: '_' :: 'l' :: 'e' :: 'n' :: '=' :: v) :: rest) =
      parseParamsGo { ret with MaxHPCLen := i } rest := by
  have hsplit := splitOn_eq_pair ['h', 'p', 'c', '_', 'l', 'e', 'n'] v
    (by decide) hv
  simp only [List.cons_append, List.nil_append] at hsplit
  simp +decide [parseParamsGo, hsplit, hst]

theorem parseParamsGo_rc (ret : SeedDBParameters) (v : List Char)
    (rest : List (List Char)) (i : Int) (hv : '=' ∉ v)
    (hst : stoiM v = some i) :
    parseParamsGo ret (('r' :: 'c' :: '=' :: v) :: rest) =
      parseParamsGo { ret with UseRC := i ≠ 0 } rest := by
  have hsplit := splitOn_eq_pair ['r', 'c'] v (by decide) hv
  simp only [List.cons_append, List.nil_append] at hsplit
  simp +decide [parseParamsGo, hsplit, hst]

theorem parseParamsGo_skip (ret : SeedDBParameters) (p : List Char)
    (rest : List (List Char)) (k v : List Char)
    (hsplit : p.splitOn '=' = [k, v]) (hne : p.isEmpty = false)
    (h1 : k ≠ ['k']) (h2 : k ≠ ['w']) (h3 : k ≠ ['h', 'p', 'c'])
    (h4 : k ≠ ['h', 'p', 'c', '_', 'l', 'e', 'n']) (h5 : k ≠ ['r', 'c']) :
    parseParamsGo ret (p :: rest) = parseParamsGo ret rest := by
  simp [parseParamsGo, hsplit, hne, h1, h2, h3, h4, h5]

theorem stoiM_emitBool (b : Bool) :
    stoiM (emitBool b) = some (if b then (1 : Int) else 0) := by
  cases b <;> decide

theorem stoiM_emitBool_newline (b : Bool) :
    stoiM (emitBool b ++ ['\n']) = some (if b then (1 : Int) else 0) := by
  cases b <;> decide

theorem emitBool_ne_decide (b : Bool) :
    ((if b then (1 : Int) else 0) ≠ 0) = (b = true) := by
  cases b <;> simp

theorem parseSeedDBParams_emit (dflt ps : SeedDBParameters) :
    parseSeedDBParams dflt (emitPBody ps) = .ok ps := by
  obtain ⟨k, w, hb, ml, rb⟩ := ps
  unfold parseSeedDBParams
  have hsplit : (emitPBody ⟨k, w, hb, ml, rb⟩).splitOn ',' =
      [['k', '='] ++ intToChars k,
       ['w', '='] ++ intToChars w,
       ['h', 'p', 'c', '='] ++ emitBool hb,
       ['h', 'p', 'c', '_', 'l', 'e', 'n', '='] ++ intToChars ml,
       ['r', 'c', '='] ++ emitBool rb] := by
    rw [emitPBody_intercalate]
    refine List.splitOn_intercalate _ ',' ?_ (by simp)
    intro l hl
    simp only [List.mem_cons, List.not_mem_nil, or_false] at hl
    rcases hl with h | h | h | h | h <;> subst h <;> intro hc <;>
      rcases List.mem_append.mp hc with hm | hm
    · exact absurd hm (by decide)
    · exact intToChars_no_comma _ hm
    · exact absurd hm (by decide)
    · exact intToChars_no_comma _ hm
    · exact absurd hm (by decide)
    · exact (emitBool_chars hb).1 hm
    · exact absurd hm (by decide)
    · exact intToChars_no_comma _ hm
    · exact absurd hm (by decide)
    · exact (emitBool_chars rb).1 hm
  rw [hsplit]
  simp only [List.cons_append, List.nil_append]
  rw [parseParamsGo_k _ _ _ _ (intToChars_no_eq _) (stoiM_intToChars _)]
  rw [parseParamsGo_w _ _ _ _ (intToChars_no_eq _) (stoiM_intToChars _)]
  rw [parseParamsGo_hpc _ _ _ _ (emitBool_chars hb).2.1 (stoiM_emitBool hb)]
  rw [parseParamsGo_hpclen _ _ _ _ (intToChars_no_eq _) (stoiM_intToChars _)]
  rw [parseParamsGo_rc _ _ _ _ (emitBool_chars rb).2.1 (stoiM_emitBool rb)]
  simp only [parseParamsGo]
  cases hb <;> cases rb <;> simp

theorem parseSeedDBParams_tabbed (dflt ps : SeedDBParameters) :
    parseSeedDBParams dflt ('\t' :: emitPBody ps ++ ['\n']) =
      .ok { KmerSize := dflt.KmerSize,
            MinimizerWindow := ps.MinimizerWindow, UseHPC := ps.UseHPC,
            MaxHPCLen := ps.MaxHPCLen, UseRC := ps.UseRC } := by
  obtain ⟨k, w, hb, ml, rb⟩ := ps
  unfold parseSeedDBParams
  have hform : '\t' :: emitPBody ⟨k, w, hb, ml, rb⟩ ++ ['\n'] =
      List.intercalate [',']
        [['\t', 'k', '='] ++ intToChars k,
         ['w', '='] ++ intToChars w,
         ['h', 'p', 'c', '='] ++ emitBool hb,
         ['h', 'p', 'c', '_', 'l', 'e', 'n', '='] ++ intToChars ml,
         ['r', 'c', '='] ++ (emitBool rb ++ ['\n'])] := by
    simp [emitPBody, List.intercalate, List.intersperse]
  have hsplit : ('\t' :: emitPBody ⟨k, w, hb, ml, rb⟩ ++ ['\n']).splitOn ',' =
      [['\t', 'k', '='] ++ intToChars k,
       ['w', '='] ++ intToChars w,
       ['h', 'p', 'c', '='] ++ emitBool hb,
       ['h', 'p', 'c', '_', 'l', 'e', 'n', '='] ++ intToChars ml,
       ['r', 'c', '='] ++ (emitBool rb ++ ['\n'])] := by
    rw [hform]
    refine List.splitOn_intercalate _ ',' ?_ (by simp)
    intro l hl
    simp only [List.mem_cons, List.not_mem_nil, or_false] at hl
    rcases hl with h | h | h | h | h <;> subst h <;> intro hc <;>
      rcases List.mem_append.mp hc with hm | hm
    · exact absurd hm (by decide)
    · exact intToChars_no_comma _ hm
    · exact absurd hm (by decide)
    · exact intToChars_no_comma _ hm
    · exact absurd hm (by decide)
    · exact (emitBool_chars hb).1 hm
    · exact absurd hm (by decide)
    · exact intToChars_no_comma _ hm
    · exact absurd hm (by decide)
    · rcases List.mem_append.mp hm with hm2 | hm2
      · exact (emitBool_chars rb).1 hm2
      · simp at hm2
  rw [hsplit]
  simp only [List.cons_append, List.nil_append]
  rw [parseParamsGo_skip _ _ _ ['\t', 'k'] (intToChars k)
    (by
      have := splitOn_eq_pair ['\t', 'k'] (intToChars k) (by decide)
        (intToChars_no_eq k)
      simpa using this)
    (by simp) (by decide) (by decide) (by decide) (by decide) (by decide)]
  rw [parseParamsGo_w _ _ _ _ (intToChars_no_eq _) (stoiM_intToChars _)]
  rw [parseParamsGo_hpc _ _ _ _ (emitBool_chars hb).2.1 (stoiM_emitBool hb)]
  rw [parseParamsGo_hpclen _ _ _ _ (intToChars_no_eq _) (stoiM_intToChars _)]
  rw [parseParamsGo_rc _ _ _
    ((if rb then (1 : Int) else 0))
    (by
      intro hc
      rcases List.mem_append.mp hc with hm | hm
      · exact (emitBool_chars rb).2.1 hm
      · simp at hm)
    (stoiM_emitBool_newline rb)]
  simp only [parseParamsGo]
  cases hb <;> cases rb <;> simp

theorem head_tab_not_digit (X : List Char) :
    ∀ c, ('\t' :: X).head? = some c → c.isDigit = false := by
  intro c hc
  simp only [List.head?_cons, Option.some.injEq] at hc
  rw [← hc]
  decide

theorem head_tab_ws (X : List Char) :
    ∀ c, ('\t' :: X).head? = some c → isWS c = true := by
  intro c hc
  simp only [List.head?_cons, Option.some.injEq] at hc
  rw [← hc]
  decide

theorem head_nil_not_digit :
    ∀ c, ([] : List Char).head? = some c → c.isDigit = false := by
  intro c hc
  simp at hc

theorem extInt_run (cur i : Int) (s rest : List Char)
    (hscan : scanInt s = some (i, rest)) :
    extInt cur (s, false) = (i, (rest, false)) := by
  unfold extInt
  simp only [hscan]

theorem extStr_run (cur t s rest : List Char)
    (hscan : scanTok s = some (t, rest)) :
    extStr cur (s, false) = (t, (rest, false)) := by
  unfold extStr
  simp only [hscan]

theorem scanInt_tab_last (i : Int) :
    scanInt ('\t' :: intToChars i) = some (i, []) := by
  rw [scanInt_ws_cons _ _ (by decide)]
  have h := scanInt_intToChars i [] head_nil_not_digit
  rwa [List.append_nil] at h

theorem scanInt_tab (i : Int) (rest : List Char) :
    scanInt ('\t' :: (intToChars i ++ '\t' :: rest)) =
      some (i, '\t' :: rest) := by
  rw [scanInt_ws_cons _ _ (by decide)]
  exact scanInt_intToChars i ('\t' :: rest) (head_tab_not_digit rest)

theorem scanTok_tab_last (t : List Char) (hne : t ≠ [])
    (hws : ∀ c ∈ t, isWS c = false) :
    scanTok ('\t' :: t) = some (t, []) := by
  rw [scanTok_ws_cons _ _ (by decide)]
  have h := scanTok_concat t [] hne hws (by intro c hc; simp at hc)
  rwa [List.append_nil] at h

theorem scanTok_tab (t rest : List Char) (hne : t ≠ [])
    (hws : ∀ c ∈ t, isWS c = false) :
    scanTok ('\t' :: (t ++ '\t' :: rest)) = some (t, '\t' :: rest) := by
  rw [scanTok_ws_cons _ _ (by decide)]
  exact scanTok_concat t ('\t' :: rest) hne hws (head_tab_ws rest)

theorem loadStreamLine_V (dflt : SeedDBParameters) (cache : SeedDBIndexCache)
    (v : List Char) (hne : v ≠ []) (hws : ∀ c ∈ v, isWS c = false) :
    loadStreamLine dflt cache ('V' :: '\t' :: v) =
      .ok { cache with version := v } := by
  unfold loadStreamLine
  rw [scanChar_cons 'V' _ (by decide)]
  have e1 : extStr cache.version ('\t' :: v, false) = (v, ([], false)) :=
    extStr_run _ _ _ _ (scanTok_tab_last v hne hws)
  simp only [e1, if_pos (rfl : ('V' : Char) = 'V'), if_true]

theorem loadStreamLine_B (dflt : SeedDBParameters) (cache : SeedDBIndexCache)
    (bl : SeedDBBlockLine) :
    loadStreamLine dflt cache (emitBlockBody bl) =
      .ok { cache with blockLines := cache.blockLines ++ [bl] } := by
  obtain ⟨bid, bstart, bend, bbytes⟩ := bl
  unfold emitBlockBody
  simp only [List.cons_append, List.append_assoc]
  unfold loadStreamLine
  rw [scanChar_cons 'B' _ (by decide)]
  have e1 := extInt_run 0 bid _ _ (scanInt_tab bid
    (intToChars bstart ++ '\t' :: (intToChars bend ++ '\t' :: intToChars bbytes)))
  have e2 := extInt_run 0 bstart _ _ (scanInt_tab bstart
    (intToChars bend ++ '\t' :: intToChars bbytes))
  have e3 := extInt_run 0 bend _ _ (scanInt_tab bend (intToChars bbytes))
  have e4 := extInt_run 0 bbytes _ _ (scanInt_tab_last bbytes)
  simp only [if_neg (show ¬(('B' : Char) = 'V') by decide),
    if_neg (show ¬(('B' : Char) = 'P') by decide),
    if_neg (show ¬(('B' : Char) = 'F') by decide),
    if_neg (show ¬(('B' : Char) = 'S') by decide),
    if_pos (rfl : ('B' : Char) = 'B'), if_true, e1, e2, e3, e4]

theorem loadStreamLine_F (dflt : SeedDBParameters) (cache : SeedDBIndexCache)
    (fl : SeedDBFileLine) (hne : fl.filename ≠ [])
    (hws : ∀ c ∈ fl.filename, isWS c = false) :
    loadStreamLine dflt cache (emitFileBody fl) =
      .ok { cache with fileLines := cache.fileLines ++ [fl] } := by
  obtain ⟨fid, fname, nseq, nbyt⟩ := fl
  simp only at hne hws
  unfold emitFileBody
  simp only [List.cons_append, List.append_assoc]
  unfold loadStreamLine
  rw [scanChar_cons 'F' _ (by decide)]
  have e1 := extInt_run 0 fid _ _ (scanInt_tab fid
    (fname ++ '\t' :: (intToChars nseq ++ '\t' :: intToChars nbyt)))
  have e2 := extStr_run [] fname _ _ (scanTok_tab fname
    (intToChars nseq ++ '\t' :: intToChars nbyt) hne hws)
  have e3 := extInt_run 0 nseq _ _ (scanInt_tab nseq (intToChars nbyt))
  have e4 := extInt_run 0 nbyt _ _ (scanInt_tab_last nbyt)
  simp only [if_neg (show ¬(('F' : Char) = 'V') by decide),
    if_neg (show ¬(('F' : Char) = 'P') by decide),
    if_pos (rfl : ('F' : Char) = 'F'), if_true, e1, e2, e3, e4]

theorem loadStreamLine_S (dflt : SeedDBParameters) (cache : SeedDBIndexCache)
    (sl : SeedDBSeedsLine) (hne : sl.header ≠ [])
    (hws : ∀ c ∈ sl.header, isWS c = false)
    (hord : sl.seqId = (cache.seedLines.length : Int)) :
    loadStreamLine dflt cache (emitSeedsBody sl) =
      .ok { cache with seedLines := cache.seedLines ++ [sl] } := by
  obtain ⟨sid, hdr, fid, foff, nbyt, nbas, nsee⟩ := sl
  simp only at hne hws hord
  unfold emitSeedsBody
  simp only [List.cons_append, List.append_assoc]
  unfold loadStreamLine
  rw [scanChar_cons 'S' _ (by decide)]
  have e1 := extInt_run 0 sid _ _ (scanInt_tab sid
    (hdr ++ '\t' :: (intToChars fid ++ '\t' :: (intToChars foff ++
      '\t' :: (intToChars nbyt ++ '\t' :: (intToChars nbas ++
      '\t' :: intToChars nsee))))))
  have e2 := extStr_run [] hdr _ _ (scanTok_tab hdr
    (intToChars fid ++ '\t' :: (intToChars foff ++
      '\t' :: (intToChars nbyt ++ '\t' :: (intToChars nbas ++
      '\t' :: intToChars nsee)))) hne hws)
  have e3 := extInt_run 0 fid _ _ (scanInt_tab fid
    (intToChars foff ++ '\t' :: (intToChars nbyt ++
      '\t' :: (intToChars nbas ++ '\t' :: intToChars nsee))))
  have e4 := extInt_run 0 foff _ _ (scanInt_tab foff
    (intToChars nbyt ++ '\t' :: (intToChars nbas ++ '\t' :: intToChars nsee)))
  have e5 := extInt_run 0 nbyt _ _ (scanInt_tab nbyt
    (intToChars nbas ++ '\t' :: intToChars nsee))
  have e6 := extInt_run 0 nbas _ _ (scanInt_tab nbas (intToChars nsee))
  have e7 := extInt_run 0 nsee _ _ (scanInt_tab_last nsee)
  simp only [if_neg (show ¬(('S' : Char) = 'V') by decide),
    if_neg (show ¬(('S' : Char) = 'P') by decide),
    if_neg (show ¬(('S' : Char) = 'F') by decide),
    if_pos (rfl : ('S' : Char) = 'S'), if_true, e1, e2, e3, e4, e5, e6, e7]
  rw [if_neg (show ¬(sid ≠ (cache.seedLines.length : Int)) by simp [hord])]

theorem emitPBody_ne (ps : SeedDBParameters) : emitPBody ps ≠ [] := by
  simp [emitPBody]

theorem ws_append {xs ys : List Char} (hx : ∀ c ∈ xs, isWS c = false)
    (hy : ∀ c ∈ ys, isWS c = false) : ∀ c ∈ xs ++ ys, isWS c = false := by
  intro c hc
  rcases List.mem_append.mp hc with h | h
  · exact hx c h
  · exact hy c h

theorem emitPBody_not_ws (ps : SeedDBParameters) :
    ∀ c ∈ emitPBody ps, isWS c = false := by
  unfold emitPBody
  exact ws_append (ws_append (ws_append (ws_append (ws_append (ws_append
    (ws_append (ws_append (ws_append (by decide) (intToChars_not_ws _))
    (by decide)) (intToChars_not_ws _)) (by decide))
    ((emitBool_chars _).2.2.2)) (by decide)) (intToChars_not_ws _))
    (by decide)) ((emitBool_chars _).2.2.2)

theorem loadStreamLine_P (dflt : SeedDBParameters) (cache : SeedDBIndexCache)
    (ps : SeedDBParameters) :
    loadStreamLine dflt cache ('P' :: '\t' :: emitPBody ps) =
      .ok { cache with seedParams := ps } := by
  unfold loadStreamLine
  rw [scanChar_cons 'P' _ (by decide)]
  have e1 : extStr [] ('\t' :: emitPBody ps, false) = (emitPBody ps, ([], false)) :=
    extStr_run _ _ _ _ (scanTok_tab_last _ (emitPBody_ne ps) (emitPBody_not_ws ps))
  simp only [if_neg (show ¬(('P' : Char) = 'V') by decide),
    if_pos (rfl : ('P' : Char) = 'P'), if_true, e1,
    parseSeedDBParams_emit dflt ps]

theorem nl_cons {c : Char} {xs : List Char} (hc : c ≠ '\n') (hxs : '\n' ∉ xs) :
    '\n' ∉ c :: xs := by
  intro hm
  rcases List.mem_cons.mp hm with h | h
  · exact hc h.symm
  · exact hxs h

theorem nl_append {xs ys : List Char} (hx : '\n' ∉ xs) (hy : '\n' ∉ ys) :
    '\n' ∉ xs ++ ys := by
  intro hm
  rcases List.mem_append.mp hm with h | h
  · exact hx h
  · exact hy h

theorem noNL_of_ws (xs : List Char) (h : ∀ c ∈ xs, isWS c = false) :
    '\n' ∉ xs := by
  intro hm
  have := h '\n' hm
  exact absurd this (by decide)

theorem emitPBody_noNL (ps : SeedDBParameters) : '\n' ∉ emitPBody ps :=
  noNL_of_ws _ (emitPBody_not_ws ps)

theorem emitFileBody_noNL (fl : SeedDBFileLine)
    (hws : ∀ c ∈ fl.filename, isWS c = false) : '\n' ∉ emitFileBody fl := by
  unfold emitFileBody
  exact nl_append (nl_append (nl_append
    (nl_cons (by decide) (nl_cons (by decide) (intToChars_no_newline _)))
    (nl_cons (by decide) (noNL_of_ws _ hws)))
    (nl_cons (by decide) (intToChars_no_newline _)))
    (nl_cons (by decide) (intToChars_no_newline _))

theorem emitSeedsBody_noNL (sl : SeedDBSeedsLine)
    (hws : ∀ c ∈ sl.header, isWS c = false) : '\n' ∉ emitSeedsBody sl := by
  unfold emitSeedsBody
  exact nl_append (nl_append (nl_append (nl_append (nl_append (nl_append
    (nl_cons (by decide) (nl_cons (by decide) (intToChars_no_newline _)))
    (nl_cons (by decide) (noNL_of_ws _ hws)))
    (nl_cons (by decide) (intToChars_no_newline _)))
    (nl_cons (by decide) (intToChars_no_newline _)))
    (nl_cons (by decide) (intToChars_no_newline _)))
    (nl_cons (by decide) (intToChars_no_newline _)))
    (nl_cons (by decide) (intToChars_no_newline _))

theorem emitBlockBody_noNL (bl : SeedDBBlockLine) : '\n' ∉ emitBlockBody bl := by
  unfold emitBlockBody
  exact nl_append (nl_append (nl_append
    (nl_cons (by decide) (nl_cons (by decide) (intToChars_no_newline _)))
    (nl_cons (by decide) (intToChars_no_newline _)))
    (nl_cons (by decide) (intToChars_no_newline _)))
    (nl_cons (by decide) (intToChars_no_newline _))

theorem emitFileBody_isEmpty (fl : SeedDBFileLine) :
    (emitFileBody fl).isEmpty = false := by
  simp [emitFileBody, List.isEmpty_iff]

theorem emitSeedsBody_isEmpty (sl : SeedDBSeedsLine) :
    (emitSeedsBody sl).isEmpty = false := by
  simp [emitSeedsBody, List.isEmpty_iff]

theorem emitBlockBody_isEmpty (bl : SeedDBBlockLine) :
    (emitBlockBody bl).isEmpty = false := by
  simp [emitBlockBody, List.isEmpty_iff]

theorem loadStreamGo_append (dflt : SeedDBParameters) (cache : SeedDBIndexCache)
    (ls1 ls2 : List (List Char)) :
    loadStreamGo dflt cache (ls1 ++ ls2) =
      match loadStreamGo dflt cache ls1 with
      | .error e => .error e
      | .ok c2 => loadStreamGo dflt c2 ls2 := by
  induction ls1 generalizing cache with
  | nil => simp [loadStreamGo]
  | cons l ls ih =>
    simp only [List.cons_append, loadStreamGo]
    by_cases hl : l.isEmpty
    · rw [if_pos hl, if_pos hl]
      exact ih cache
    · rw [if_neg hl, if_neg hl]
      cases loadStreamLine dflt cache l with
      | error e => rfl
      | ok c2 => exact ih c2

theorem loadStreamGo_F (dflt : SeedDBParameters) (cache : SeedDBIndexCache)
    (fls : List SeedDBFileLine)
    (h : ∀ fl ∈ fls, fl.filename ≠ [] ∧ ∀ c ∈ fl.filename, isWS c = false) :
    loadStreamGo dflt cache (fls.map emitFileBody) =
      .ok { cache with fileLines := cache.fileLines ++ fls } := by
  induction fls generalizing cache with
  | nil => simp [loadStreamGo]
  | cons fl fls ih =>
    simp only [List.map_cons, loadStreamGo]
    rw [if_neg (by simp [emitFileBody_isEmpty fl])]
    obtain ⟨hne, hws⟩ := h fl (List.mem_cons_self fl fls)
    rw [loadStreamLine_F dflt cache fl hne hws]
    dsimp only
    rw [ih _ (fun x hx => h x (List.mem_cons_of_mem fl hx))]
    simp

theorem loadStreamGo_B (dflt : SeedDBParameters) (cache : SeedDBIndexCache)
    (bls : List SeedDBBlockLine) :
    loadStreamGo dflt cache (bls.map emitBlockBody) =
      .ok { cache with blockLines := cache.blockLines ++ bls } := by
  induction bls generalizing cache with
  | nil => simp [loadStreamGo]
  | cons bl bls ih =>
    simp only [List.map_cons, loadStreamGo]
    rw [if_neg (by simp [emitBlockBody_isEmpty bl])]
    rw [loadStreamLine_B dflt cache bl]
    dsimp only
    rw [ih _]
    simp

theorem loadStreamGo_S (dflt : SeedDBParameters) (cache : SeedDBIndexCache)
    (sls : List SeedDBSeedsLine)
    (h : ∀ sl ∈ sls, sl.header ≠ [] ∧ ∀ c ∈ sl.header, isWS c = false)
    (hord : ∀ i, i < sls.length →
      (sls.getD i dummySeedsLine).seqId = (cache.seedLines.length : Int) + i) :
    loadStreamGo dflt cache (sls.map emitSeedsBody) =
      .ok { cache with seedLines := cache.seedLines ++ sls } := by
  induction sls generalizing cache with
  | nil => simp [loadStreamGo]
  | cons sl sls ih =>
    simp only [List.map_cons, loadStreamGo]
    rw [if_neg (by simp [emitSeedsBody_isEmpty sl])]
    obtain ⟨hne, hws⟩ := h sl (List.mem_cons_self sl sls)
    have h0 := hord 0 (by simp)
    simp only [List.getD_cons_zero, Nat.cast_zero, add_zero] at h0
    rw [loadStreamLine_S dflt cache sl hne hws h0]
    dsimp only
    rw [ih _ (fun x hx => h x (List.mem_cons_of_mem sl hx))
      (by
        intro i hi
        have hi1 := hord (i + 1) (by simp; omega)
        simp only [List.getD_cons_succ] at hi1
        rw [hi1]
        simp [List.length_append]
        ring)]
    simp

theorem pSkipOffset_one : ∀ n, pSkipOffset n = 1 := by
  intro n
  unfold pSkipOffset
  cases n with
  | zero => rfl
  | succ m =>
    simp only [pSkipFrom]
    rw [if_neg]
    rintro ⟨h1, h2 | h2⟩
    · exact absurd h2 (by decide)
    · exact absurd h2 (by decide)

theorem getlineSplitGo_term (body : List Char) (rest acc : List Char)
    (h : '\n' ∉ body) :
    getlineSplitGo (body ++ '\n' :: rest) acc =
      (acc.reverse ++ (body ++ ['\n'])) :: getlineSplitGo rest [] := by
  induction body generalizing acc with
  | nil => simp [getlineSplitGo]
  | cons c body ih =>
    have hc : ¬(c = '\n') := by
      intro hcc
      exact h (by rw [hcc]; simp)
    simp only [List.cons_append, getlineSplitGo, if_neg hc, List.append_eq]
    rw [ih (c :: acc) (fun hm => h (List.mem_cons_of_mem c hm))]
    simp

theorem getlineSplit_single (body : List Char) (h : '\n' ∉ body) :
    getlineSplit (body ++ ['\n']) = [body ++ ['\n']] := by
  unfold getlineSplit
  rw [getlineSplitGo_term body [] [] h]
  simp [getlineSplitGo]







/-- **C2** (amended).  For every index cache with at least one `S` record
whose version, filenames and headers are nonempty and whitespace-free and
whose `S` records carry their ordinal position as `seqId`, emitting with
`operator<<` and re-loading with the stream loader reproduces the cache
exactly; and the emitted text splits at newlines into the `V` line, one
`P` line with keys in the order `k,w,hpc,hpc_len,rc`, then all `F`, all
`S`, and all `B` lines, tab-separated.  Without those hypotheses the
roundtrip fails (whitespace inside a field splits it, and a non-ordinal
`seqId` is rejected). -/
theorem c2_emit_load_roundtrip (dflt : SeedDBParameters) (c : SeedDBIndexCache)
    (hvne : c.version ≠ []) (hvws : ∀ ch ∈ c.version, isWS ch = false)
    (hf : ∀ fl ∈ c.fileLines,
      fl.filename ≠ [] ∧ ∀ ch ∈ fl.filename, isWS ch = false)
    (hs : ∀ sl ∈ c.seedLines,
      sl.header ≠ [] ∧ ∀ ch ∈ sl.header, isWS ch = false)
    (hord : ∀ i, i < c.seedLines.length →
      (c.seedLines.getD i dummySeedsLine).seqId = (i : Int))
    (hne : c.seedLines ≠ []) :
    loadSeedDBIndexCacheStream dflt (emitCache c) = .ok c ∧
    (emitCache c).splitOn '\n' =
      ('V' :: '\t' :: c.version) :: ('P' :: '\t' :: emitPBody c.seedParams) ::
      (c.fileLines.map emitFileBody ++ c.seedLines.map emitSeedsBody ++
        c.blockLines.map emitBlockBody) ++ [[]] := by
  have hnl : ∀ b ∈ emitBodies c, '\n' ∉ b := by
    intro b hb
    unfold emitBodies at hb
    rcases List.mem_cons.mp hb with h | hb2
    · subst h
      exact nl_cons (by decide) (nl_cons (by decide) (noNL_of_ws _ hvws))
    rcases List.mem_cons.mp hb2 with h | hb3
    · subst h
      exact nl_cons (by decide) (nl_cons (by decide) (emitPBody_noNL _))
    rcases List.mem_append.mp hb3 with h | h
    · rcases List.mem_append.mp h with h2 | h2
      · obtain ⟨fl, hfl, hflb⟩ := List.mem_map.mp h2
        rw [← hflb]
        exact emitFileBody_noNL fl (hf fl hfl).2
      · obtain ⟨sl, hsl, hslb⟩ := List.mem_map.mp h2
        rw [← hslb]
        exact emitSeedsBody_noNL sl (hs sl hsl).2
    · obtain ⟨bl, _, hblb⟩ := List.mem_map.mp h
      rw [← hblb]
      exact emitBlockBody_noNL bl
  have hsplit : (emitCache c).splitOn '\n' = emitBodies c ++ [[]] :=
    splitOn_lines (emitBodies c) hnl
  refine ⟨?_, by rw [hsplit]; unfold emitBodies; rfl⟩
  unfold loadSeedDBIndexCacheStream
  rw [hsplit]
  unfold emitBodies
  simp only [List.cons_append, List.append_assoc]
  simp only [loadStreamGo]
  rw [if_neg (by simp)]
  rw [loadStreamLine_V dflt _ c.version hvne hvws]
  dsimp only
  rw [if_neg (by simp)]
  rw [loadStreamLine_P dflt _ c.seedParams]
  dsimp only
  rw [loadStreamGo_append]
  rw [loadStreamGo_F dflt _ c.fileLines hf]
  dsimp only
  rw [loadStreamGo_append]
  rw [loadStreamGo_S dflt _ c.seedLines hs
    (by
      intro i hi
      rw [hord i hi]
      simp [emptyCacheWith])]
  dsimp only
  rw [loadStreamGo_append]
  rw [loadStreamGo_B dflt _ c.blockLines]
  dsimp only
  simp only [loadStreamGo]
  rw [if_pos (by decide)]
  simp only [loadStreamGo, List.nil_append]
  rw [if_neg (by simp [List.isEmpty_iff, hne])]
  simp [emptyCacheWith]

/-- **C8** (amended).  The stream loader never returns a cache with no
`S` records: whenever it returns `ok`, `seedLines` is nonempty (the
`EmptyIndex` check at the end of `LoadSeedDBIndexCache(std::istream&)`).
The `FILE*` loader has no such check. -/
theorem c8_stream_loader_rejects_empty (dflt : SeedDBParameters) (input : List Char)
    (cache : SeedDBIndexCache)
    (hok : loadSeedDBIndexCacheStream dflt input = .ok cache) :
    cache.seedLines ≠ [] := by
  unfold loadSeedDBIndexCacheStream at hok
  cases hgo : loadStreamGo dflt (emptyCacheWith dflt) (input.splitOn '\n') with
  | error e =>
    rw [hgo] at hok
    exact Except.noConfusion hok
  | ok c2 =>
    rw [hgo] at hok
    dsimp only at hok
    by_cases he : c2.seedLines.isEmpty
    · rw [if_pos he] at hok
      exact Except.noConfusion hok
    · rw [if_neg he] at hok
      injection hok with h
      subst h
      simpa [List.isEmpty_iff] using he

theorem c10_file_p_main (dflt ps : SeedDBParameters) :
    loadSeedDBIndexCacheFile dflt ('P' :: '\t' :: emitPBody ps ++ ['\n']) =
      .ok { emptyCacheWith dflt with seedParams :=
        { KmerSize := dflt.KmerSize,
          MinimizerWindow := ps.MinimizerWindow, UseHPC := ps.UseHPC,
          MaxHPCLen := ps.MaxHPCLen, UseRC := ps.UseRC } } := by
  unfold loadSeedDBIndexCacheFile
  have hnl : '\n' ∉ ('P' :: '\t' :: emitPBody ps) :=
    nl_cons (by decide) (nl_cons (by decide) (emitPBody_noNL ps))
  have hsplit := getlineSplit_single ('P' :: '\t' :: emitPBody ps) hnl
  simp only [List.cons_append] at hsplit ⊢
  rw [hsplit]
  simp only [loadFileGo]
  unfold loadFileLine
  simp only [List.headD_cons]
  simp only [if_true, if_false]
  simp only [List.length_cons, pSkipOffset_one, List.drop_succ_cons,
    List.drop_zero]
  have hp := parseSeedDBParams_tabbed dflt ps
  simp only [List.cons_append] at hp
  rw [hp]
  rw [if_neg (show ¬(('P' : Char) = 'V') by decide)]

set_option maxRecDepth 10000 in
/-- C2 counterexample: a cache whose version string contains a space does
not roundtrip: the stream loader's `>>` reads only up to the space, so the
reloaded cache differs and the claimed identity fails for *every* cache. -/
theorem c2_roundtrip_refuted :
    loadSeedDBIndexCacheStream dfltW (emitCache cacheC2bad) ≠
      .ok cacheC2bad := by decide

/-- Witness for C2 at the concrete cache `cacheC2W`. -/
theorem c2_emit_load_roundtrip_witness :
    (cacheC2W.version ≠ [] ∧ (∀ ch ∈ cacheC2W.version, isWS ch = false) ∧
      (∀ fl ∈ cacheC2W.fileLines,
        fl.filename ≠ [] ∧ ∀ ch ∈ fl.filename, isWS ch = false) ∧
      (∀ sl ∈ cacheC2W.seedLines,
        sl.header ≠ [] ∧ ∀ ch ∈ sl.header, isWS ch = false) ∧
      (∀ i, i < cacheC2W.seedLines.length →
        (cacheC2W.seedLines.getD i dummySeedsLine).seqId = (i : Int)) ∧
      cacheC2W.seedLines ≠ []) ∧
    loadSeedDBIndexCacheStream dfltW (emitCache cacheC2W) = .ok cacheC2W :=
  ⟨⟨by decide, by decide, by decide, by decide, by decide, by decide⟩,
   (c2_emit_load_roundtrip dfltW cacheC2W (by decide) (by decide) (by decide)
     (by decide) (by decide) (by decide)).1⟩

/-- C8 counterexample: on empty input the `FILE*` loader returns the empty
cache without any error, while the stream loader throws `EmptyIndex`; so
"load fails with EmptyIndex on both loading paths" is false — only the
stream loader enforces it. -/
theorem c8_file_loader_no_empty_check :
    loadSeedDBIndexCacheFile dfltW [] = .ok (emptyCacheWith dfltW) ∧
    (emptyCacheWith dfltW).seedLines = [] ∧
    isErr (loadSeedDBIndexCacheStream dfltW []) = true := by decide

/-- Witness for C8 at the concrete input `inputC8`. -/
theorem c8_stream_loader_rejects_empty_witness :
    loadSeedDBIndexCacheStream dfltW inputC8 = .ok cacheC8 ∧
    cacheC8.seedLines ≠ [] :=
  ⟨by decide, c8_stream_loader_rejects_empty dfltW inputC8 cacheC8 (by decide)⟩

/-- **C10.**  The whitespace-skipping loop of the `FILE*` loader's `P`
branch compares the index variable, not the character, with `' '` and
`'\t'`, so it never advances: the offset is 1 for every line length, the
parameter string handed to `ParseSeedDBParams` starts right after `P`,
its first key is `"\tk"` (matching no known key), and `KmerSize` is left
at its default while `w`, `hpc`, `hpc_len` and `rc` parse normally. -/
theorem c10_file_p_kmersize_default (dflt ps : SeedDBParameters) :
    (∀ n, pSkipOffset n = 1) ∧
    loadSeedDBIndexCacheFile dflt ('P' :: '\t' :: emitPBody ps ++ ['\n']) =
      .ok { emptyCacheWith dflt with seedParams :=
        { KmerSize := dflt.KmerSize,
          MinimizerWindow := ps.MinimizerWindow, UseHPC := ps.UseHPC,
          MaxHPCLen := ps.MaxHPCLen, UseRC := ps.UseRC } } :=
  ⟨pSkipOffset_one, c10_file_p_main dflt ps⟩

end Pancake
